import Mathlib

/-!
# netpoll: zero-copy allocation threshold and the sharded write-coalescing queue

Shallow embedding of `nocopy.go` (`malloc`, `mallocMax`) and of
`mux/shard_queue.go` (`ShardQueue`: `Add`, `Close`, `triggering`, `foreach`,
`deal`, `flush`, `lock`, `unlock`).

The queue is concurrent.  Every goroutine is a program counter with its local
variables, and one step of a goroutine is one atomic operation of the source
(an atomic load / add / compare-and-swap / store, or the body of a critical
section).  A schedule is a list of actions: start a call of `Add`, start a call
of `Close`, or let goroutine number `i` take its next step.
-/

namespace Netpoll

/-- Two's-complement wrap-around of Go's `int32` arithmetic. -/
def wrap32 (x : Int) : Int := (x + 2147483648) % 4294967296 - 2147483648

/-! ## nocopy.go -/

def block1k : Int := 1 * 1024

def block8k : Int := 8 * 1024

/-- Source: `mallocMax = block8k * block1k // mallocMax is 8MB`. -/
def mallocMax : Int := block8k * block1k

/-- Where the bytes returned by `malloc` come from. -/
inductive Allocation
  /-- Source: `dirtmake.Bytes(size, capacity)`, plain memory outside the pool. -/
  | dirtmake (size capacity : Int)
  /-- Source: `mcache.Malloc(size, capacity)`, the size-classed reusable pool. -/
  | mcache (size capacity : Int)
deriving DecidableEq, Repr

/-- Source: `func malloc(size, capacity int) []byte`. -/
def malloc (size capacity : Int) : Allocation :=
  if capacity > mallocMax then Allocation.dirtmake size capacity
  else Allocation.mcache size capacity

/-- The allocation was served by the pool. -/
def Allocation.fromPool : Allocation → Bool
  | Allocation.dirtmake _ _ => false
  | Allocation.mcache _ _ => true

namespace Mux

/-! ## mux/shard_queue.go: data -/

/-- A `netpoll.Writer` handed out by a getter; the queue never looks inside. -/
abbrev Buf := Nat

/-- Source: `type WriterGetter func() (buf netpoll.Writer, isNil bool)`.
A getter is represented by the pair its call returns. -/
structure WriterGetter where
  buf : Buf
  isNil : Bool
deriving DecidableEq, Repr

/-- Calls that leave the queue (on the connection, its writer, the getters),
and the return of `ShardQueue.Close`. -/
inductive Event
  /-- Source: `q.conn.Writer()`. -/
  | writer
  /-- Source: `gt()`. -/
  | resolve (gt : WriterGetter)
  /-- Source: `writer.Append(buf)`; `err` is `err != nil`. -/
  | append (buf : Buf) (err : Bool)
  /-- Source: `q.conn.Writer().Flush()`; `err` is `err != nil`. -/
  | flush (err : Bool)
  /-- Source: `q.conn.Close()`. -/
  | connClose
  /-- Source: `ShardQueue.Close` returned; `err` is `err != nil`. -/
  | closeReturn (err : Bool)
deriving DecidableEq, Repr

/-- The connection is external.  Whether an `Append` or a `Flush` fails may
depend on everything that happened before. -/
structure Conn where
  appendErr : List Event → Buf → Bool
  flushErr : List Event → Bool

def active : Int := 0

def closing : Int := 1

def closed : Int := 2

/-- Source: `type ShardQueue struct` with the embedded `queueTrigger`
(`conn` is the `Conn` parameter of the step functions). -/
structure ShardQueue where
  idx : Int
  size : Int
  getters : List (List WriterGetter)
  swap : List WriterGetter
  locks : List Int
  trigger : Int
  state : Int
  runNum : Int
  w : Int
  r : Int
  list : List Int
  listLock : Bool
deriving DecidableEq, Repr

/-- Source: `NewShardQueue(size, conn)`; `make` panics on a negative size, so
the shard count is a natural number. -/
def NewShardQueue (size : Nat) : ShardQueue :=
  { idx := 0
    size := wrap32 size
    getters := List.replicate size []
    swap := []
    locks := List.replicate size 0
    trigger := 0
    state := active
    runNum := 0
    w := 0
    r := 0
    list := List.replicate size 0
    listLock := false }

/-- Go slice indexing `l[i]`: `none` is the index-out-of-range panic. -/
def index? {α : Type} (l : List α) (i : Int) : Option α :=
  if 0 ≤ i then l[i.toNat]? else none

/-- Go slice assignment `l[i] = a` (used after `index?` succeeded). -/
def setIndex {α : Type} (l : List α) (i : Int) (a : α) : List α :=
  l.set i.toNat a

/-- Source: `shard := atomic.AddInt32(&q.idx, 1) % q.size` (Go's `%` truncates
towards zero). -/
def nextShard (idx size : Int) : Int :=
  (wrap32 (idx + 1)).tmod size

/-! ## deal and flush -/

/-- Source: the `for _, gt := range gts` loop of `deal`. -/
def dealLoop (c : Conn) : List Event → List WriterGetter → List Event
  | tr, [] => tr
  | tr, gt :: rest =>
    if gt.isNil then dealLoop c (tr ++ [Event.resolve gt]) rest
    else if c.appendErr (tr ++ [Event.resolve gt]) gt.buf then
      tr ++ [Event.resolve gt, Event.append gt.buf true, Event.connClose]
    else dealLoop c (tr ++ [Event.resolve gt, Event.append gt.buf false]) rest

/-- Source: `func (q *ShardQueue) deal(gts []WriterGetter)`. -/
def deal (c : Conn) (tr : List Event) (gts : List WriterGetter) : List Event :=
  dealLoop c (tr ++ [Event.writer]) gts

/-- Source: `func (q *ShardQueue) flush()`. -/
def flush (c : Conn) (tr : List Event) : List Event :=
  if c.flushErr (tr ++ [Event.writer]) then
    tr ++ [Event.writer, Event.flush true, Event.connClose]
  else tr ++ [Event.writer, Event.flush false]

/-- Events of a getter whose buffer, if any, is appended without error. -/
def okEvents (gt : WriterGetter) : List Event :=
  if gt.isNil then [Event.resolve gt]
  else [Event.resolve gt, Event.append gt.buf false]

/-! ## goroutines -/

/-- Program points of a call of `Add` (with `triggering` and `foreach` inlined). -/
inductive AddPc
  /-- Source: `if atomic.LoadInt32(&q.state) != active` -/
  | loadState
  /-- Source: `shard := atomic.AddInt32(&q.idx, 1) % q.size` -/
  | addIdx
  /-- Source: `q.lock(shard)` -/
  | lock
  /-- Source: `trigger := len(q.getters[shard]) == 0; q.getters[shard] = append(...)` -/
  | append
  /-- Source: `q.unlock(shard); if trigger` -/
  | unlock
  /-- Source: `q.listLock.Lock()` -/
  | listLock
  /-- Source: `q.w = (q.w + 1) % q.size; q.list[q.w] = shard` -/
  | push
  /-- Source: `q.listLock.Unlock()` -/
  | listUnlock
  /-- Source: `if atomic.AddInt32(&q.trigger, 1) > 1` -/
  | addTrigger
  /-- Source: `if atomic.AddInt32(&q.runNum, 1) > 1`, else `runner.RunTask` -/
  | foreach
deriving DecidableEq, Repr

/-- Program points of the task started by `foreach`. -/
inductive WorkerPc
  /-- Source: `triggerNum := atomic.LoadInt32(&q.trigger); triggerNum > 0` -/
  | loadTrigger
  /-- Source: `q.r = (q.r + 1) % q.size; shared := q.list[q.r]` -/
  | pop
  /-- Source: `q.lock(shared)` -/
  | lock
  /-- Source: `tmp := q.getters[shared]; q.getters[shared] = q.swap[:0]; q.swap = tmp` -/
  | swap
  /-- Source: `q.unlock(shared)` -/
  | unlock
  /-- Source: `q.deal(q.swap)` -/
  | deal
  /-- Source: `negNum--; if triggerNum+negNum == 0 ...; triggerNum > 0` -/
  | count
  /-- Source: `q.flush()` -/
  | flush
  /-- Source: `atomic.StoreInt32(&q.runNum, 0)` -/
  | storeRunNum
  /-- Source: `if atomic.LoadInt32(&q.trigger) > 0` -/
  | recheck
  /-- Source: `q.foreach()` called by the task itself -/
  | foreach
  /-- Source: `atomic.CompareAndSwapInt32(&q.state, closing, closed)` -/
  | casState
deriving DecidableEq, Repr

/-- Program points of a call of `Close`. -/
inductive ClosePc
  /-- Source: `if !atomic.CompareAndSwapInt32(&q.state, active, closing)` -/
  | casState
  /-- Source: `for atomic.LoadInt32(&q.state) != closed` -/
  | loadState
  /-- Source: `if atomic.LoadInt32(&q.trigger) == 0`, else `runtime.Gosched()` -/
  | loadTrigger
  /-- Source: `atomic.StoreInt32(&q.state, closed); return nil` -/
  | storeState
deriving DecidableEq, Repr

/-- A goroutine: its program point and its local variables. -/
inductive Thread
  | add (pc : AddPc) (gts : List WriterGetter) (shard : Int) (trigger : Bool)
  | worker (pc : WorkerPc) (triggerNum negNum shared : Int)
  | close (pc : ClosePc)
deriving DecidableEq, Repr

/-- What a goroutine does after a step. -/
inductive Next
  /-- It goes on at the given program point. -/
  | goto (t : Thread)
  /-- Its function returns. -/
  | ret
  /-- Source: `runner.RunTask` starts a drain task and the function returns. -/
  | spawn
  /-- A run-time panic (index out of range, division by zero). -/
  | panic
deriving DecidableEq, Repr

/-- Result of one step of one goroutine. -/
structure StepOut where
  q : ShardQueue
  trace : List Event
  next : Next

/-- Source: `foreach`, the admission `atomic.AddInt32(&q.runNum, 1) > 1`. -/
def foreachStep (q : ShardQueue) (tr : List Event) : StepOut :=
  let n := wrap32 (q.runNum + 1)
  { q := { q with runNum := n }, trace := tr, next := if n > 1 then Next.ret else Next.spawn }

/-- Source: `lock`, one attempt of `atomic.CompareAndSwapInt32(&q.locks[shard], 0, 1)`;
on failure the goroutine yields and tries again. -/
def lockStep (q : ShardQueue) (tr : List Event) (shard : Int) (self after : Thread) : StepOut :=
  match index? q.locks shard with
  | none => { q := q, trace := tr, next := Next.panic }
  | some v =>
    if v = 0 then
      { q := { q with locks := setIndex q.locks shard 1 }, trace := tr, next := Next.goto after }
    else { q := q, trace := tr, next := Next.goto self }

/-- Source: `unlock`, `atomic.StoreInt32(&q.locks[shard], 0)`. -/
def unlockStep (q : ShardQueue) (tr : List Event) (shard : Int) (after : Next) : StepOut :=
  match index? q.locks shard with
  | none => { q := q, trace := tr, next := Next.panic }
  | some _ => { q := { q with locks := setIndex q.locks shard 0 }, trace := tr, next := after }

/-- One step of a call of `Add`. -/
def addStep (q : ShardQueue) (tr : List Event) (gts : List WriterGetter) (shard : Int)
    (trigger : Bool) : AddPc → StepOut
  | AddPc.loadState =>
    if q.state ≠ active then { q := q, trace := tr, next := Next.ret }
    else { q := q, trace := tr, next := Next.goto (Thread.add AddPc.addIdx gts shard trigger) }
  | AddPc.addIdx =>
    if q.size = 0 then
      { q := { q with idx := wrap32 (q.idx + 1) }, trace := tr, next := Next.panic }
    else
      { q := { q with idx := wrap32 (q.idx + 1) }, trace := tr,
        next := Next.goto (Thread.add AddPc.lock gts (nextShard q.idx q.size) trigger) }
  | AddPc.lock =>
    lockStep q tr shard (Thread.add AddPc.lock gts shard trigger)
      (Thread.add AddPc.append gts shard trigger)
  | AddPc.append =>
    match index? q.getters shard with
    | none => { q := q, trace := tr, next := Next.panic }
    | some g =>
      { q := { q with getters := setIndex q.getters shard (g ++ gts) }, trace := tr,
        next := Next.goto (Thread.add AddPc.unlock gts shard (g.length == 0)) }
  | AddPc.unlock =>
    unlockStep q tr shard
      (if trigger then Next.goto (Thread.add AddPc.listLock gts shard trigger) else Next.ret)
  | AddPc.listLock =>
    if q.listLock then
      { q := q, trace := tr, next := Next.goto (Thread.add AddPc.listLock gts shard trigger) }
    else
      { q := { q with listLock := true }, trace := tr,
        next := Next.goto (Thread.add AddPc.push gts shard trigger) }
  | AddPc.push =>
    if q.size = 0 then { q := q, trace := tr, next := Next.panic }
    else
      match index? q.list ((wrap32 (q.w + 1)).tmod q.size) with
      | none =>
        { q := { q with w := (wrap32 (q.w + 1)).tmod q.size }, trace := tr, next := Next.panic }
      | some _ =>
        { q := { q with w := (wrap32 (q.w + 1)).tmod q.size,
                        list := setIndex q.list ((wrap32 (q.w + 1)).tmod q.size) shard },
          trace := tr, next := Next.goto (Thread.add AddPc.listUnlock gts shard trigger) }
  | AddPc.listUnlock =>
    { q := { q with listLock := false }, trace := tr,
      next := Next.goto (Thread.add AddPc.addTrigger gts shard trigger) }
  | AddPc.addTrigger =>
    { q := { q with trigger := wrap32 (q.trigger + 1) }, trace := tr,
      next := if wrap32 (q.trigger + 1) > 1 then Next.ret
              else Next.goto (Thread.add AddPc.foreach gts shard trigger) }
  | AddPc.foreach => foreachStep q tr

/-- The loop condition `triggerNum > 0` of the drain task. -/
def loopHead (triggerNum negNum shared : Int) : Next :=
  if triggerNum > 0 then Next.goto (Thread.worker WorkerPc.pop triggerNum negNum shared)
  else Next.goto (Thread.worker WorkerPc.flush triggerNum negNum shared)

/-- One step of the task started by `foreach`. -/
def workerStep (c : Conn) (q : ShardQueue) (tr : List Event) (triggerNum negNum shared : Int) :
    WorkerPc → StepOut
  | WorkerPc.loadTrigger =>
    { q := q, trace := tr, next := loopHead q.trigger 0 shared }
  | WorkerPc.pop =>
    if q.size = 0 then { q := q, trace := tr, next := Next.panic }
    else
      match index? q.list ((wrap32 (q.r + 1)).tmod q.size) with
      | none =>
        { q := { q with r := (wrap32 (q.r + 1)).tmod q.size }, trace := tr, next := Next.panic }
      | some s =>
        { q := { q with r := (wrap32 (q.r + 1)).tmod q.size }, trace := tr,
          next := Next.goto (Thread.worker WorkerPc.lock triggerNum negNum s) }
  | WorkerPc.lock =>
    lockStep q tr shared (Thread.worker WorkerPc.lock triggerNum negNum shared)
      (Thread.worker WorkerPc.swap triggerNum negNum shared)
  | WorkerPc.swap =>
    match index? q.getters shared with
    | none => { q := q, trace := tr, next := Next.panic }
    | some tmp =>
      { q := { q with getters := setIndex q.getters shared [], swap := tmp }, trace := tr,
        next := Next.goto (Thread.worker WorkerPc.unlock triggerNum negNum shared) }
  | WorkerPc.unlock =>
    unlockStep q tr shared (Next.goto (Thread.worker WorkerPc.deal triggerNum negNum shared))
  | WorkerPc.deal =>
    { q := q, trace := deal c tr q.swap,
      next := Next.goto (Thread.worker WorkerPc.count triggerNum negNum shared) }
  | WorkerPc.count =>
    if wrap32 (triggerNum + wrap32 (negNum - 1)) = 0 then
      { q := { q with trigger := wrap32 (q.trigger + wrap32 (negNum - 1)) }, trace := tr,
        next := loopHead (wrap32 (q.trigger + wrap32 (negNum - 1))) 0 shared }
    else
      { q := q, trace := tr, next := loopHead triggerNum (wrap32 (negNum - 1)) shared }
  | WorkerPc.flush =>
    { q := q, trace := flush c tr,
      next := Next.goto (Thread.worker WorkerPc.storeRunNum triggerNum negNum shared) }
  | WorkerPc.storeRunNum =>
    { q := { q with runNum := 0 }, trace := tr,
      next := Next.goto (Thread.worker WorkerPc.recheck triggerNum negNum shared) }
  | WorkerPc.recheck =>
    { q := q, trace := tr,
      next := if q.trigger > 0 then Next.goto (Thread.worker WorkerPc.foreach triggerNum negNum shared)
              else Next.goto (Thread.worker WorkerPc.casState triggerNum negNum shared) }
  | WorkerPc.foreach => foreachStep q tr
  | WorkerPc.casState =>
    { q := { q with state := if q.state = closing then closed else q.state }, trace := tr,
      next := Next.ret }

/-- One step of a call of `Close`. -/
def closeStep (q : ShardQueue) (tr : List Event) : ClosePc → StepOut
  | ClosePc.casState =>
    if q.state = active then
      { q := { q with state := closing }, trace := tr,
        next := Next.goto (Thread.close ClosePc.loadState) }
    else { q := q, trace := tr ++ [Event.closeReturn true], next := Next.ret }
  | ClosePc.loadState =>
    if q.state ≠ closed then
      { q := q, trace := tr, next := Next.goto (Thread.close ClosePc.loadTrigger) }
    else { q := q, trace := tr ++ [Event.closeReturn false], next := Next.ret }
  | ClosePc.loadTrigger =>
    if q.trigger = 0 then
      { q := q, trace := tr, next := Next.goto (Thread.close ClosePc.storeState) }
    else { q := q, trace := tr, next := Next.goto (Thread.close ClosePc.loadState) }
  | ClosePc.storeState =>
    { q := { q with state := closed }, trace := tr ++ [Event.closeReturn false], next := Next.ret }

/-- One step of a goroutine. -/
def Thread.step (c : Conn) (q : ShardQueue) (tr : List Event) : Thread → StepOut
  | Thread.add pc gts shard trigger => addStep q tr gts shard trigger pc
  | Thread.worker pc triggerNum negNum shared => workerStep c q tr triggerNum negNum shared pc
  | Thread.close pc => closeStep q tr pc

/-! ## the whole program -/

/-- The queue, what left it so far, the live goroutines, and whether the
program has crashed with a panic. -/
structure Sys where
  q : ShardQueue
  trace : List Event
  threads : List Thread
  panicked : Bool
deriving DecidableEq, Repr

inductive Action
  /-- Some goroutine calls `q.Add(gts...)`. -/
  | callAdd (gts : List WriterGetter)
  /-- Some goroutine calls `q.Close()`. -/
  | callClose
  /-- The scheduler lets goroutine number `i` take one step. -/
  | run (i : Nat)
deriving DecidableEq, Repr

/-- A drain task that `runner.RunTask` has accepted and that has not started. -/
def newWorker : Thread := Thread.worker WorkerPc.loadTrigger 0 0 0

/-- A call of `Add` that has not taken a step. -/
def newAdd (gts : List WriterGetter) : Thread := Thread.add AddPc.loadState gts 0 false

/-- A call of `Close` that has not taken a step. -/
def newClose : Thread := Thread.close ClosePc.casState

/-- The goroutine pool after goroutine `i` took a step. -/
def afterStep (ts : List Thread) (i : Nat) : Next → List Thread
  | Next.goto t => ts.set i t
  | Next.ret => ts.eraseIdx i
  | Next.spawn => ts.eraseIdx i ++ [newWorker]
  | Next.panic => ts

def Sys.step (c : Conn) (s : Sys) : Action → Sys
  | Action.callAdd gts =>
    if s.panicked then s else { s with threads := s.threads ++ [newAdd gts] }
  | Action.callClose =>
    if s.panicked then s else { s with threads := s.threads ++ [newClose] }
  | Action.run i =>
    if s.panicked then s
    else
      match s.threads[i]? with
      | none => s
      | some t =>
        { q := (t.step c s.q s.trace).q
          trace := (t.step c s.q s.trace).trace
          threads := afterStep s.threads i (t.step c s.q s.trace).next
          panicked := decide ((t.step c s.q s.trace).next = Next.panic) }

def Sys.run (c : Conn) (s : Sys) (acts : List Action) : Sys :=
  acts.foldl (Sys.step c) s

/-- The program right after `NewShardQueue(size, conn)`. -/
def Sys.init (size : Nat) : Sys :=
  { q := NewShardQueue size, trace := [], threads := [], panicked := false }

/-- A drain pass that the admission counter `runNum` has let in and that has
not yet executed `atomic.StoreInt32(&q.runNum, 0)`. -/
def Thread.admitted : Thread → Bool
  | Thread.worker WorkerPc.loadTrigger _ _ _ => true
  | Thread.worker WorkerPc.pop _ _ _ => true
  | Thread.worker WorkerPc.lock _ _ _ => true
  | Thread.worker WorkerPc.swap _ _ _ => true
  | Thread.worker WorkerPc.unlock _ _ _ => true
  | Thread.worker WorkerPc.deal _ _ _ => true
  | Thread.worker WorkerPc.count _ _ _ => true
  | Thread.worker WorkerPc.flush _ _ _ => true
  | Thread.worker WorkerPc.storeRunNum _ _ _ => true
  | _ => false

/-- Number of drain passes between admission and the clearing of `runNum`. -/
def Sys.admittedWorkers (s : Sys) : Nat :=
  s.threads.countP Thread.admitted

/-- A connection on which nothing ever fails. -/
def goodConn : Conn :=
  { appendErr := fun _ _ => false, flushErr := fun _ => false }

/-- The writer reports no failure for any append that `deal` issues for `gts`
when the calls before were `tr` followed by `q.conn.Writer()`. -/
def NoAppendFails (c : Conn) (tr : List Event) (gts : List WriterGetter) : Prop :=
  ∀ pre g post, gts = pre ++ g :: post → g.isNil = false →
    c.appendErr (tr ++ [Event.writer] ++ pre.flatMap okEvents ++ [Event.resolve g]) g.buf = false

/-- A connection whose writer rejects exactly the buffer `9`. -/
def rejectNine : Conn :=
  { appendErr := fun _ b => b == 9, flushErr := fun _ => false }

/-- A state of the program in which `Close` was called and its
compare-and-swap has succeeded. -/
def closingSys : Sys :=
  { q := { NewShardQueue 1 with state := closing }, trace := [], threads := [], panicked := false }

/-- A getter that resolves to buffer `7`. -/
def g7 : WriterGetter := { buf := 7, isNil := false }

/-- A getter that resolves to buffer `9`. -/
def g9 : WriterGetter := { buf := 9, isNil := false }

/-- A getter that resolves to buffer `5`. -/
def g5 : WriterGetter := { buf := 5, isNil := false }

/-- A getter that resolves to "nothing to write". -/
def gNil : WriterGetter := { buf := 0, isNil := true }

/-- The critical sections (`AddPc.append`) of successive calls of `Add` that
all picked shard `s`, executed in call order. -/
def appendCalls (q : ShardQueue) (tr : List Event) (s : Int)
    (calls : List (List WriterGetter)) : ShardQueue :=
  calls.foldl (fun q1 gts => (addStep q1 tr gts s false AddPc.append).q) q

/-- Schedule: `Add(g7)` runs to its end and starts the drain task; the task
drains the shard and brings the trigger counter to zero, and stops right before
`q.flush()`; then `Close` is called and runs to its end. -/
def closeBeforeFlush : List Action :=
  [Action.callAdd [g7]] ++ List.replicate 10 (Action.run 0) ++ List.replicate 7 (Action.run 0) ++
    [Action.callClose] ++ List.replicate 4 (Action.run 1)

/-- Schedule: `Add(g7)` appends to its shard while the queue is Active and is
preempted before `triggering`; then `Close` is called and runs to its end. -/
def closeBeforeTrigger : List Action :=
  [Action.callAdd [g7]] ++ List.replicate 4 (Action.run 0) ++
    [Action.callClose] ++ List.replicate 4 (Action.run 1)

/-- Schedule on two shards: `Add(g7)` (shard 1) runs to its end, the drain task
it starts does not run yet. -/
def firstAdd : List Action :=
  [Action.callAdd [g7]] ++ List.replicate 10 (Action.run 0)

/-- Schedule on two shards: after `firstAdd`, the calls `Add()` (shard 0),
`Add()` (shard 1, not empty) and `Add()` (shard 0, still empty) run to their
ends before the drain task takes a step. -/
def emptyAdds : List Action :=
  firstAdd ++ [Action.callAdd []] ++ List.replicate 9 (Action.run 1) ++
    [Action.callAdd []] ++ List.replicate 5 (Action.run 1) ++
    [Action.callAdd []] ++ List.replicate 9 (Action.run 1)

/-- Schedule: after `emptyAdds` the drain task runs to its end. -/
def emptyAddsThenDrain : List Action :=
  emptyAdds ++ List.replicate 23 (Action.run 0)

/-- The queue has the shape `NewShardQueue` gives it and no producer is inside
a shard's critical section. -/
def WellFormed (q : ShardQueue) : Prop :=
  1 ≤ q.size ∧ q.size < 2147483648 ∧ 0 ≤ q.r ∧ q.r < q.size ∧
    (q.list.length : Int) = q.size ∧ (q.getters.length : Int) = q.size ∧
    (q.locks.length : Int) = q.size ∧ ∀ v ∈ q.locks, v = 0

/-- The next `n` entries of the trigger ring after read cursor `r`, in the order
in which they were pushed. -/
def ringNext (list : List Int) (size r : Int) : Nat → List Int
  | 0 => []
  | n + 1 =>
    (index? list ((wrap32 (r + 1)).tmod size)).getD 0 ::
      ringNext list size ((wrap32 (r + 1)).tmod size) n

/-- The pending getters of shard `s`. -/
def pendingOf (q : ShardQueue) (s : Int) : List WriterGetter :=
  (index? q.getters s).getD []

/-- The queue after the drain task popped shard `s` and swapped it out. -/
def drainOne (q : ShardQueue) (s : Int) : ShardQueue :=
  { q with r := (wrap32 (q.r + 1)).tmod q.size
           getters := setIndex q.getters s []
           swap := pendingOf q s }

/-- The queue after the drain task popped and swapped out the shards `ss`. -/
def drained (q : ShardQueue) : List Int → ShardQueue
  | [] => q
  | s :: ss => drained (drainOne q s) ss

/-- The events after the drain task popped, swapped out and dealt the shards `ss`. -/
def drainTrace (c : Conn) : ShardQueue → List Event → List Int → List Event
  | _, tr, [] => tr
  | q, tr, s :: ss => drainTrace c (drainOne q s) (deal c tr (pendingOf q s)) ss

/-- Successive calls of `deal` on the given getter lists. -/
def dealAll (c : Conn) : List Event → List (List WriterGetter) → List Event
  | tr, [] => tr
  | tr, gts :: rest => dealAll c (deal c tr gts) rest

/-- `n` consecutive steps of one goroutine while no other goroutine runs;
`none` if it returns or panics before. -/
def runAlone (c : Conn) : Nat → ShardQueue → List Event → Thread →
    Option (ShardQueue × List Event × Thread)
  | 0, q, tr, t => some (q, tr, t)
  | n + 1, q, tr, t =>
    match (t.step c q tr).next with
    | Next.goto t1 => runAlone c n (t.step c q tr).q (t.step c q tr).trace t1
    | _ => none

/-- The event is a call of `Flush`. -/
def Event.isFlush : Event → Bool
  | Event.flush _ => true
  | _ => false

/-- Schedule on two shards: `Add(g7)` (shard 1) and `Add(g5, gNil)` (shard 0)
run to their ends; the drain task started by the first has not run yet. -/
def twoAdds : List Action :=
  firstAdd ++ [Action.callAdd [g5, gNil]] ++ List.replicate 9 (Action.run 1)

/-- The program after `twoAdds`: two triggers outstanding, drain task about to start. -/
def drainSys : Sys := Sys.run goodConn (Sys.init 2) twoAdds

/-- What the admission counter guarantees: `runNum` is a non-negative `int32`,
it is zero when no drain pass is admitted, and at least one when exactly one
is; never are two admitted. -/
def AdmissionInv (s : Sys) : Prop :=
  0 ≤ s.q.runNum ∧ s.q.runNum ≤ 2147483647 ∧
    ((s.admittedWorkers = 0 ∧ s.q.runNum = 0) ∨ (s.admittedWorkers = 1 ∧ 1 ≤ s.q.runNum))

/-- Schedule on one shard: the first `Add()` (no getters) runs to its end and
starts the drain task, which does not run. -/
def addEmptyFirst : List Action :=
  [Action.callAdd [], Action.run 0, Action.run 0, Action.run 0, Action.run 0, Action.run 0,
    Action.run 0, Action.run 0, Action.run 0, Action.run 0, Action.run 0]

/-- Schedule: one more `Add()` runs to its end (goroutine 0 is the drain task
that has not started; the last step is idle when `Add` returned earlier). -/
def addEmptyNext : List Action :=
  [Action.callAdd [], Action.run 1, Action.run 1, Action.run 1, Action.run 1, Action.run 1,
    Action.run 1, Action.run 1, Action.run 1, Action.run 1, Action.run 1]

/-- Schedule: `n + 1` calls `Add()` run to their ends, one after the other,
while the drain task started by the first is never scheduled. -/
def manyAdds (n : Nat) : List Action :=
  addEmptyFirst ++ (List.replicate n addEmptyNext).flatten

/-- The program on one shard after some calls `Add()`: rotating index `i`,
trigger counter `tg`, admission counter `rn`, one drain task not yet started. -/
def ringState (i tg rn : Int) : Sys :=
  { q := { idx := i, size := 1, getters := [[]], swap := [], locks := [0], trigger := tg,
           state := active, runNum := rn, w := 0, r := 0, list := [0], listLock := false }
    trace := []
    threads := [newWorker]
    panicked := false }

/-- The admission counter after `m ≥ 1` calls `Add()` with the drain task not
scheduled: the calls from number `2147483648` on find the wrapped trigger
counter not above 1 and call `foreach`. -/
def runNumAfter (m : Nat) : Int :=
  if m < 2147483648 then 1 else (m : Int) - 2147483648 + 2

/-- Schedule: the first `Add(g7)` runs to its end and starts the drain task,
which does not run. -/
def addFirst : List Action :=
  [Action.callAdd [g7], Action.run 0, Action.run 0, Action.run 0, Action.run 0, Action.run 0,
    Action.run 0, Action.run 0, Action.run 0, Action.run 0, Action.run 0]

/-- Schedule: one more `Add(g7)` runs to its end (goroutine 0 is the drain
task that has not started; the steps after the return of `Add` are idle). -/
def addNext : List Action :=
  [Action.callAdd [g7], Action.run 1, Action.run 1, Action.run 1, Action.run 1, Action.run 1,
    Action.run 1, Action.run 1, Action.run 1, Action.run 1, Action.run 1]

/-- Schedule: `n + 1` calls `Add(g7)` run to their ends, one after the other,
while the drain task started by the first is not scheduled. -/
def addsInTurn (n : Nat) : List Action :=
  addFirst ++ (List.replicate n addNext).flatten

/-- The program on three shards, each holding getters, after the calls of `Add`
brought the rotating index to `i`; the drain task has not started. -/
def threeShards (i : Int) (a b d : List WriterGetter) : Sys :=
  { q := { idx := i, size := 3, getters := [a, b, d], swap := [], locks := [0, 0, 0],
           trigger := 3, state := active, runNum := 1, w := 0, r := 0, list := [0, 1, 2],
           listLock := false }
    trace := []
    threads := [newWorker]
    panicked := false }

/-- The goroutine is a call of `Close`. -/
def Thread.isClose : Thread → Bool
  | Thread.close _ => true
  | _ => false

/-- The action is a call of `Close`. -/
def Action.isCallClose : Action → Bool
  | Action.callClose => true
  | _ => false

/-- The event is a return of `Close` with an error. -/
def Event.isCloseError : Event → Bool
  | Event.closeReturn true => true
  | _ => false

/-- The goroutine does not go on as a call of `Close`. -/
def Next.noClose : Next → Bool
  | Next.goto t => !t.isClose
  | _ => true

/-- While a single call of `Close` is in flight, `n` error returns having been
recorded before it: either the queue is still Active and the call has not
passed its compare-and-swap, or the call has passed it. -/
def CloseInv (n : Nat) (s : Sys) : Prop :=
  s.trace.countP Event.isCloseError = n ∧
    ((s.q.state = active ∧ s.threads.countP Thread.isClose ≤ 1 ∧
        ∀ t ∈ s.threads, t.isClose = true → t = Thread.close ClosePc.casState) ∨
      (∀ t ∈ s.threads, t ≠ Thread.close ClosePc.casState))

/-- The program on one shard after `Add(g7)` ran to its end: the trigger is
outstanding and the drain task has not started. -/
def pendingSys : Sys :=
  Sys.run goodConn (Sys.init 1) ([Action.callAdd [g7]] ++ List.replicate 10 (Action.run 0))

/-- Schedule after a call of `Close` on `pendingSys`: the call passes its
compare-and-swap and goes twice around its wait loop; the drain task runs to
its end; the call takes one more step. -/
def waitForDrain : List Action :=
  List.replicate 5 (Action.run 1) ++ List.replicate 11 (Action.run 0) ++ [Action.run 0]

/-- Schedule on two shards: after `firstAdd` (shard 1 holds `g7`), the calls
`Add()` (shard 0), `Add(g9)` (shard 1, not empty) and `Add(g5)` (shard 0, still
empty) run to their ends before the drain task takes a step. -/
def overwritingAdds : List Action :=
  firstAdd ++ [Action.callAdd []] ++ List.replicate 9 (Action.run 1) ++
    [Action.callAdd [g9]] ++ List.replicate 5 (Action.run 1) ++
    [Action.callAdd [g5]] ++ List.replicate 9 (Action.run 1)

/-- Schedule: after `overwritingAdds` the drain task runs alone; `n` steps. -/
def overwritingAddsThenDrain (n : Nat) : List Action :=
  overwritingAdds ++ List.replicate n (Action.run 0)

/-- A call of `Close` taking its steps from program point `pc`: `qs` lists the
queue as the call finds it at each of its steps, after whatever the other
goroutines did since its step before.  The result is what the call recorded and
how it goes on after these steps. -/
def closeCall : ClosePc → List ShardQueue → List Event × Next
  | pc, [] => ([], Next.goto (Thread.close pc))
  | pc, q :: rest =>
    match (closeStep q [] pc).next with
    | Next.goto (Thread.close pc2) =>
      ((closeStep q [] pc).trace ++ (closeCall pc2 rest).1, (closeCall pc2 rest).2)
    | nx => ((closeStep q [] pc).trace, nx)

end Mux

/-! ## nocopy.go: the pooled-allocation threshold -/

theorem mallocMax_eq : mallocMax = 8388608 := by
  decide

/-- C6 (as stated, refuted): a capacity exactly at the threshold
`mallocMax = 8388608` is "at or above the threshold", yet `malloc` takes the
buffer from the pool. -/
theorem malloc_at_threshold_from_pool :
    mallocMax = 8388608 ∧ (8388608 : Int) ≥ mallocMax ∧
      malloc 0 8388608 = Allocation.mcache 0 8388608 ∧
      ¬ (malloc 0 8388608 = Allocation.dirtmake 0 8388608) := by
  decide

/-- C6 (amended): `malloc size capacity` takes the buffer from the pool exactly
when `capacity` is at most `mallocMax = 8388608`, and bypasses the pool exactly
when `capacity` is strictly above it. -/
theorem malloc_pool_iff (size capacity : Int) :
    mallocMax = 8388608 ∧
      (malloc size capacity = Allocation.mcache size capacity ↔ capacity ≤ 8388608) ∧
      (malloc size capacity = Allocation.dirtmake size capacity ↔ 8388608 < capacity) := by
  refine ⟨mallocMax_eq, ?_, ?_⟩
  · unfold malloc
    rw [mallocMax_eq]
    split
    · constructor
      · intro h1
        cases h1
      · intro h1
        omega
    · constructor
      · intro _
        omega
      · intro _
        rfl
  · unfold malloc
    rw [mallocMax_eq]
    split
    · constructor
      · intro _
        omega
      · intro _
        rfl
    · constructor
      · intro h1
        cases h1
      · intro h1
        omega

namespace Mux

/-! ## the goroutine pool -/

theorem eraseIdx_last {α : Type} (l : List α) (a : α) : (l ++ [a]).eraseIdx l.length = l := by
  rw [List.eraseIdx_append_of_length_le (Nat.le_refl _)]
  simp

theorem set_last {α : Type} (l : List α) (a b : α) : (l ++ [a]).set l.length b = l ++ [b] := by
  induction l with
  | nil => rfl
  | cons x xs ih => simp [ih]

theorem getElem?_last {α : Type} (l : List α) (a : α) : (l ++ [a])[l.length]? = some a := by
  simp

/-! ## Add: shard selection -/

/-- While the incremented index has not wrapped, the shard is in range. -/
theorem nextShard_in_range (idx size : Int) (hsize : 1 ≤ size) (hlo : -1 ≤ idx)
    (hhi : idx < 2147483647) : 0 ≤ nextShard idx size ∧ nextShard idx size < size := by
  unfold nextShard wrap32
  have h1 : (idx + 1 + 2147483648) % 4294967296 - 2147483648 = idx + 1 := by omega
  rw [h1]
  have h0 : 0 ≤ idx + 1 := by omega
  rw [Int.tmod_eq_emod h0 (by omega)]
  constructor
  · exact Int.emod_nonneg _ (by omega)
  · exact Int.emod_lt_of_pos _ (by omega)

/-! ## Add on a queue that is not Active -/

/-- C5: on a queue whose state is Closing or Closed, a call of `Add` run to its
end leaves the queue (every field), the events (no getter is resolved) and the
goroutines (no drain task is started) exactly as they were. -/
theorem add_not_active_noop (c : Conn) (s : Sys) (gts : List WriterGetter)
    (hs : s.q.state = closing ∨ s.q.state = closed) :
    Sys.run c s [Action.callAdd gts, Action.run s.threads.length] = s := by
  have hne : s.q.state ≠ active := by
    rcases hs with h | h <;> rw [h] <;> decide
  cases hp : s.panicked
  · cases s
    simp_all [Sys.run, Sys.step, newAdd, Thread.step, addStep, afterStep, eraseIdx_last]
  · simp [Sys.run, Sys.step, hp]

theorem add_not_active_noop_witness :
    (closingSys.q.state = closing ∨ closingSys.q.state = closed) ∧
      Sys.run goodConn closingSys [Action.callAdd [{ buf := 7, isNil := false }],
        Action.run closingSys.threads.length] = closingSys :=
  ⟨Or.inl rfl, add_not_active_noop goodConn closingSys _ (Or.inl rfl)⟩

/-! ## deal -/

theorem dealLoop_ok (c : Conn) (gts : List WriterGetter) :
    ∀ tr0 : List Event,
      (∀ pre g post, gts = pre ++ g :: post → g.isNil = false →
        c.appendErr (tr0 ++ pre.flatMap okEvents ++ [Event.resolve g]) g.buf = false) →
      dealLoop c tr0 gts = tr0 ++ gts.flatMap okEvents := by
  induction gts with
  | nil =>
    intro tr0 _
    simp [dealLoop]
  | cons g rest ih =>
    intro tr0 h
    have hrest : ∀ tr1 : List Event, tr1 = tr0 ++ okEvents g →
        ∀ pre g1 post, rest = pre ++ g1 :: post → g1.isNil = false →
          c.appendErr (tr1 ++ pre.flatMap okEvents ++ [Event.resolve g1]) g1.buf = false := by
      intro tr1 htr1 pre g1 post hsplit hn
      have := h (g :: pre) g1 post (by rw [hsplit]; rfl) hn
      rw [htr1]
      simpa [List.flatMap_cons, List.append_assoc] using this
    cases hnil : g.isNil
    · have hg := h [] g rest rfl hnil
      simp only [List.flatMap_nil, List.append_nil] at hg
      rw [dealLoop]
      simp only [hnil, hg, Bool.false_eq_true, if_false]
      rw [ih _ (hrest _ (by simp [okEvents, hnil]))]
      simp [List.flatMap_cons, okEvents, hnil]
    · rw [dealLoop]
      simp only [hnil, if_true]
      rw [ih _ (hrest _ (by simp [okEvents, hnil]))]
      simp [List.flatMap_cons, okEvents, hnil]

theorem dealLoop_append (c : Conn) (pre : List WriterGetter) :
    ∀ (tr0 : List Event) (rest : List WriterGetter),
      (∀ p g post, pre = p ++ g :: post → g.isNil = false →
        c.appendErr (tr0 ++ p.flatMap okEvents ++ [Event.resolve g]) g.buf = false) →
      dealLoop c tr0 (pre ++ rest) = dealLoop c (tr0 ++ pre.flatMap okEvents) rest := by
  induction pre with
  | nil =>
    intro tr0 rest _
    simp
  | cons g pre ih =>
    intro tr0 rest h
    have hrest : ∀ tr1 : List Event, tr1 = tr0 ++ okEvents g →
        ∀ p g1 post, pre = p ++ g1 :: post → g1.isNil = false →
          c.appendErr (tr1 ++ p.flatMap okEvents ++ [Event.resolve g1]) g1.buf = false := by
      intro tr1 htr1 p g1 post hsplit hn
      have := h (g :: p) g1 post (by rw [hsplit]; rfl) hn
      rw [htr1]
      simpa [List.flatMap_cons, List.append_assoc] using this
    cases hnil : g.isNil
    · have hg := h [] g pre rfl hnil
      simp only [List.flatMap_nil, List.append_nil] at hg
      rw [List.cons_append, dealLoop]
      simp only [hnil, hg, Bool.false_eq_true, if_false]
      rw [ih _ rest (hrest _ (by simp [okEvents, hnil]))]
      simp [List.flatMap_cons, okEvents, hnil]
    · rw [List.cons_append, dealLoop]
      simp only [hnil, if_true]
      rw [ih _ rest (hrest _ (by simp [okEvents, hnil]))]
      simp [List.flatMap_cons, okEvents, hnil]

theorem connClose_not_mem_okEvents (gts : List WriterGetter) :
    Event.connClose ∉ gts.flatMap okEvents := by
  intro h
  rcases List.mem_flatMap.1 h with ⟨g, _, hg⟩
  unfold okEvents at hg
  split at hg <;> simp at hg

theorem count_connClose_okEvents (gts : List WriterGetter) :
    List.count Event.connClose (gts.flatMap okEvents) = 0 :=
  List.count_eq_zero.2 (connClose_not_mem_okEvents gts)

/-- C3: let `deal` be called on `gts`.  If `gts = pre ++ g :: post`, no append
for `pre` fails and the append of the buffer of `g` fails, then the calls made
by `deal` are exactly: `Writer()`, the resolutions and appends of `pre` in
order, the resolution of `g`, its failed append, and one `conn.Close()`; so
nothing of `post` is resolved or appended and `conn.Close()` occurs exactly
once.  If no append fails, `deal` resolves and appends all of `gts` in order
and does not call `conn.Close()`. -/
theorem deal_failure_is_fatal (c : Conn) (tr : List Event) (gts : List WriterGetter) :
    (∀ pre g post, gts = pre ++ g :: post → NoAppendFails c tr pre → g.isNil = false →
      c.appendErr (tr ++ [Event.writer] ++ pre.flatMap okEvents ++ [Event.resolve g]) g.buf = true →
        deal c tr gts = tr ++ ([Event.writer] ++ pre.flatMap okEvents ++
          [Event.resolve g, Event.append g.buf true, Event.connClose]) ∧
        List.count Event.connClose ([Event.writer] ++ pre.flatMap okEvents ++
          [Event.resolve g, Event.append g.buf true, Event.connClose]) = 1) ∧
    (NoAppendFails c tr gts →
      deal c tr gts = tr ++ ([Event.writer] ++ gts.flatMap okEvents) ∧
      List.count Event.connClose ([Event.writer] ++ gts.flatMap okEvents) = 0) := by
  constructor
  · intro pre g post hsplit hpre hnil hfail
    constructor
    · rw [hsplit, deal, dealLoop_append c pre _ _ hpre, dealLoop]
      simp only [hnil, hfail, Bool.false_eq_true, if_false, if_true]
      simp [List.append_assoc]
    · simp [List.count_append, count_connClose_okEvents, List.count_cons]
  · intro hok
    constructor
    · rw [deal, dealLoop_ok c gts _ hok]
      simp [List.append_assoc]
    · simp [List.count_append, count_connClose_okEvents, List.count_cons]

theorem noAppendFails_rejectNine : NoAppendFails rejectNine [] [g7, gNil] := by
  intro pre g post h hn
  rcases pre with _ | ⟨a, _ | ⟨b, pre⟩⟩
  · simp at h
    rw [← h.1]
    rfl
  · simp at h
    rw [← h.2.1] at hn
    cases hn
  · simp at h

theorem deal_failure_is_fatal_witness :
    deal rejectNine [] [g7, gNil, g9, g5] =
      [Event.writer, Event.resolve g7, Event.append 7 false, Event.resolve gNil,
        Event.resolve g9, Event.append 9 true, Event.connClose] ∧
      List.count Event.connClose ([Event.writer] ++ [g7, gNil].flatMap okEvents ++
        [Event.resolve g9, Event.append g9.buf true, Event.connClose]) = 1 :=
  (deal_failure_is_fatal rejectNine [] [g7, gNil, g9, g5]).1 [g7, gNil] g9 [g5] rfl
    noAppendFails_rejectNine rfl rfl

/-! ## Close -/

theorem lockStep_state (q : ShardQueue) (tr : List Event) (shard : Int) (self after : Thread) :
    (lockStep q tr shard self after).q.state = q.state := by
  unfold lockStep
  split
  · rfl
  · split <;> rfl

theorem unlockStep_state (q : ShardQueue) (tr : List Event) (shard : Int) (after : Next) :
    (unlockStep q tr shard after).q.state = q.state := by
  unfold unlockStep
  split <;> rfl

theorem addStep_state (q : ShardQueue) (tr : List Event) (gts : List WriterGetter) (shard : Int)
    (trigger : Bool) (pc : AddPc) : (addStep q tr gts shard trigger pc).q.state = q.state := by
  cases pc <;> simp only [addStep, lockStep_state, unlockStep_state, foreachStep]
  all_goals (repeat' split) <;> rfl

theorem workerStep_state_ne_active (c : Conn) (q : ShardQueue) (tr : List Event)
    (triggerNum negNum shared : Int) (pc : WorkerPc) (h : q.state ≠ active) :
    (workerStep c q tr triggerNum negNum shared pc).q.state ≠ active := by
  cases pc <;> simp only [workerStep, lockStep_state, unlockStep_state, foreachStep]
  case casState =>
    split
    · decide
    · exact h
  all_goals (repeat' split) <;> exact h

theorem closeStep_state_ne_active (q : ShardQueue) (tr : List Event) (pc : ClosePc)
    (h : q.state ≠ active) : (closeStep q tr pc).q.state ≠ active := by
  cases pc with
  | casState =>
    simp only [closeStep]
    split
    · rename_i ha
      exact absurd ha h
    · exact h
  | loadState =>
    simp only [closeStep]
    split <;> exact h
  | loadTrigger =>
    simp only [closeStep]
    split <;> exact h
  | storeState =>
    show closed ≠ active
    decide

theorem step_state_ne_active (c : Conn) (q : ShardQueue) (tr : List Event) (t : Thread)
    (h : q.state ≠ active) : (t.step c q tr).q.state ≠ active := by
  cases t with
  | add pc gts shard trigger =>
    simp only [Thread.step, addStep_state]
    exact h
  | worker pc triggerNum negNum shared =>
    exact workerStep_state_ne_active c q tr triggerNum negNum shared pc h
  | close pc => exact closeStep_state_ne_active q tr pc h

theorem sys_step_state_ne_active (c : Conn) (s : Sys) (a : Action) (h : s.q.state ≠ active) :
    (Sys.step c s a).q.state ≠ active := by
  cases a with
  | callAdd gts =>
    simp only [Sys.step]
    split <;> exact h
  | callClose =>
    simp only [Sys.step]
    split <;> exact h
  | run i =>
    simp only [Sys.step]
    split
    · exact h
    · split
      · exact h
      · exact step_state_ne_active c _ _ _ h

theorem run_state_ne_active (c : Conn) (acts : List Action) :
    ∀ s : Sys, s.q.state ≠ active → (Sys.run c s acts).q.state ≠ active := by
  induction acts with
  | nil =>
    intro s h
    exact h
  | cons a rest ih =>
    intro s h
    exact ih _ (sys_step_state_ne_active c s a h)

/-! ## per-shard order -/

theorem index?_setIndex_self {α : Type} (l : List α) (i : Int) (a b : α)
    (h : index? l i = some a) : index? (setIndex l i b) i = some b := by
  unfold index? at h ⊢
  unfold setIndex
  split at h
  · rename_i hi
    rw [if_pos hi]
    have hlt : i.toNat < l.length := by
      by_contra hge
      rw [List.getElem?_eq_none (Nat.le_of_not_lt hge)] at h
      cases h
    rw [List.getElem?_set_self hlt]
  · cases h

theorem index?_setIndex_ne {α : Type} (l : List α) (i j : Int) (a b : α)
    (h : index? l i = some a) (hne : i ≠ j) : index? (setIndex l i b) j = index? l j := by
  unfold index? at h ⊢
  unfold setIndex
  split at h
  · rename_i hi
    by_cases hj : 0 ≤ j
    · rw [if_pos hj, if_pos hj]
      have : i.toNat ≠ j.toNat := by omega
      rw [List.getElem?_set_ne this]
    · rw [if_neg hj, if_neg hj]
  · cases h

theorem appendCalls_getters (tr : List Event) (s : Int) (calls : List (List WriterGetter)) :
    ∀ (q : ShardQueue) (pending : List WriterGetter), index? q.getters s = some pending →
      index? (appendCalls q tr s calls).getters s = some (pending ++ calls.flatten) := by
  induction calls with
  | nil =>
    intro q pending h
    simpa [appendCalls] using h
  | cons gts rest ih =>
    intro q pending h
    have hstep : index? (addStep q tr gts s false AddPc.append).q.getters s =
        some (pending ++ gts) := by
      simp only [addStep, h]
      exact index?_setIndex_self _ _ _ _ h
    have := ih _ _ hstep
    simpa [appendCalls, List.append_assoc] using this

theorem lockStep_getters (q : ShardQueue) (tr : List Event) (shard : Int) (self after : Thread) :
    (lockStep q tr shard self after).q.getters = q.getters := by
  unfold lockStep
  split
  · rfl
  · split <;> rfl

theorem unlockStep_getters (q : ShardQueue) (tr : List Event) (shard : Int) (after : Next) :
    (unlockStep q tr shard after).q.getters = q.getters := by
  unfold unlockStep
  split <;> rfl

theorem step_getters_frame (c : Conn) (q : ShardQueue) (tr : List Event) (s : Int) (t : Thread)
    (hadd : ∀ gts b, t ≠ Thread.add AddPc.append gts s b)
    (hswap : ∀ a b, t ≠ Thread.worker WorkerPc.swap a b s) :
    index? (t.step c q tr).q.getters s = index? q.getters s := by
  cases t with
  | add pc gts shard trigger =>
    cases pc
    case append =>
      have hne : shard ≠ s := by
        intro h
        exact hadd gts trigger (by rw [h])
      simp only [Thread.step, addStep]
      split
      · rfl
      · rename_i g hg
        exact index?_setIndex_ne _ _ _ _ _ hg hne
    all_goals simp only [Thread.step, addStep, lockStep_getters, unlockStep_getters, foreachStep]
    all_goals (repeat' split) <;> rfl
  | worker pc triggerNum negNum shared =>
    cases pc
    case swap =>
      have hne : shared ≠ s := by
        intro h
        exact hswap triggerNum negNum (by rw [h])
      simp only [Thread.step, workerStep]
      split
      · rfl
      · rename_i g hg
        exact index?_setIndex_ne _ _ _ _ _ hg hne
    all_goals simp only [Thread.step, workerStep, lockStep_getters, unlockStep_getters,
      foreachStep]
    all_goals (repeat' split) <;> rfl
  | close pc =>
    cases pc <;> simp only [Thread.step, closeStep]
    all_goals (repeat' split) <;> rfl

/-- C2: let shard `s` hold `pending`, and let calls of `Add` with the getter
lists `calls` all land on shard `s` before it is drained.  Then the shard holds
`pending` followed by the getters of the calls in call order and, within a
call, in argument order.  The drain task's swap moves exactly this sequence to
`q.swap` and empties the shard, and, when no append fails, `deal` resolves every
getter once, in that order, and appends the buffers of the getters that are not
nil in that same order.  No other step of any goroutine changes the shard. -/
theorem shard_fifo (c : Conn) (q : ShardQueue) (tr : List Event) (s : Int)
    (pending : List WriterGetter) (calls : List (List WriterGetter)) (tn nn : Int)
    (hs : index? q.getters s = some pending)
    (hok : NoAppendFails c tr (pending ++ calls.flatten)) :
    index? (appendCalls q tr s calls).getters s = some (pending ++ calls.flatten) ∧
    (workerStep c (appendCalls q tr s calls) tr tn nn s WorkerPc.swap).q.swap =
      pending ++ calls.flatten ∧
    index? (workerStep c (appendCalls q tr s calls) tr tn nn s WorkerPc.swap).q.getters s =
      some [] ∧
    (workerStep c (workerStep c (appendCalls q tr s calls) tr tn nn s WorkerPc.swap).q tr tn nn s
        WorkerPc.deal).trace =
      tr ++ ([Event.writer] ++ (pending ++ calls.flatten).flatMap okEvents) ∧
    (∀ (t : Thread) (q1 : ShardQueue) (tr1 : List Event),
      (∀ gts b, t ≠ Thread.add AddPc.append gts s b) →
      (∀ a b, t ≠ Thread.worker WorkerPc.swap a b s) →
      index? (t.step c q1 tr1).q.getters s = index? q1.getters s) := by
  have h1 := appendCalls_getters tr s calls q pending hs
  refine ⟨h1, ?_, ?_, ?_, ?_⟩
  · simp only [workerStep, h1]
  · simp only [workerStep, h1]
    exact index?_setIndex_self _ _ _ _ h1
  · simp only [workerStep, h1]
    rw [deal, dealLoop_ok c _ _ hok]
    simp [List.append_assoc]
  · intro t q1 tr1 hadd hswap
    exact step_getters_frame c q1 tr1 s t hadd hswap

theorem shard_fifo_witness :
    index? (NewShardQueue 2).getters 1 = some [] ∧
      (workerStep goodConn
        (workerStep goodConn (appendCalls (NewShardQueue 2) [] 1 [[g7, gNil], [g5]]) [] 0 0 1
          WorkerPc.swap).q [] 0 0 1 WorkerPc.deal).trace =
        [] ++ ([Event.writer] ++ ([] ++ [[g7, gNil], [g5]].flatten).flatMap okEvents) :=
  ⟨rfl, (shard_fifo goodConn (NewShardQueue 2) [] 1 [] [[g7, gNil], [g5]] 0 0 rfl
    (fun _ _ _ _ _ => rfl)).2.2.2.1⟩

/-! ## Close against the drain task -/

/-- C1 (failing schedules): on one shard, `Add(g7)` is accepted while the queue
is Active.  (a) The drain task forwards `g7` and brings the trigger counter to
zero; before it calls `q.flush()`, a call of `Close` sees the counter at zero,
stores Closed and returns nil: the state is Closed and `Close` has returned nil
while the task still stands before its flush and no `Flush` has been issued.
(b) `Add` is preempted after its append and before `triggering`; `Close` sees
the counter at zero, stores Closed and returns nil while the shard still holds
`g7`, unresolved. -/
theorem close_returns_before_flush :
    (Sys.run goodConn (Sys.init 1) closeBeforeFlush).q.state = closed ∧
    (Sys.run goodConn (Sys.init 1) closeBeforeFlush).trace =
      [Event.writer, Event.resolve g7, Event.append 7 false, Event.closeReturn false] ∧
    (Sys.run goodConn (Sys.init 1) closeBeforeFlush).threads =
      [Thread.worker WorkerPc.flush 0 0 0] ∧
    (Sys.run goodConn (Sys.init 1) closeBeforeTrigger).q.state = closed ∧
    (Sys.run goodConn (Sys.init 1) closeBeforeTrigger).q.getters = [[g7]] ∧
    (Sys.run goodConn (Sys.init 1) closeBeforeTrigger).trace = [Event.closeReturn false] := by
  decide

/-! ## the trigger ring -/

/-- C7 (failing schedule): on two shards, `Add(g7)` pushes shard 1 into ring
slot 1.  Before the drain task takes a step, `Add()` pushes shard 0 into slot
0, `Add()` lands on the non-empty shard 1, and the next `Add()` finds shard 0
still empty and pushes it again, into slot 1: the read cursor has not moved,
three entries (1, 0, 0) are pushed and not popped on a ring of size 2, shard 0
occurs twice, and the unread entry for shard 1 is overwritten.  The drain pass
that follows pops shard 0 three times and never resolves `g7`. -/
theorem empty_add_overflows_ring :
    (Sys.run goodConn (Sys.init 2) firstAdd).q.list = [0, 1] ∧
    (Sys.run goodConn (Sys.init 2) firstAdd).q.w = 1 ∧
    (Sys.run goodConn (Sys.init 2) firstAdd).q.r = 0 ∧
    (Sys.run goodConn (Sys.init 2) emptyAdds).q.list = [0, 0] ∧
    (Sys.run goodConn (Sys.init 2) emptyAdds).q.w = 1 ∧
    (Sys.run goodConn (Sys.init 2) emptyAdds).q.r = 0 ∧
    (Sys.run goodConn (Sys.init 2) emptyAdds).q.trigger = 3 ∧
    (Sys.run goodConn (Sys.init 2) emptyAdds).q.size = 2 ∧
    (Sys.run goodConn (Sys.init 2) emptyAdds).threads = [newWorker] ∧
    (Sys.run goodConn (Sys.init 2) emptyAddsThenDrain).threads = [] ∧
    (Sys.run goodConn (Sys.init 2) emptyAddsThenDrain).q.trigger = 0 ∧
    (Sys.run goodConn (Sys.init 2) emptyAddsThenDrain).q.getters = [[], [g7]] ∧
    (Sys.run goodConn (Sys.init 2) emptyAddsThenDrain).trace =
      [Event.writer, Event.writer, Event.writer, Event.writer, Event.flush false] := by
  decide

/-! ## one drain pass -/

theorem wrap32_of_range (x : Int) (hlo : -2147483648 ≤ x) (hhi : x < 2147483648) :
    wrap32 x = x := by
  unfold wrap32
  omega

theorem advance_range (x size : Int) (h0 : 0 ≤ x) (h1 : x < size) (h2 : size < 2147483648) :
    0 ≤ (wrap32 (x + 1)).tmod size ∧ (wrap32 (x + 1)).tmod size < size := by
  rw [wrap32_of_range _ (by omega) (by omega)]
  rw [Int.tmod_eq_emod (by omega) (by omega)]
  exact ⟨Int.emod_nonneg _ (by omega), Int.emod_lt_of_pos _ (by omega)⟩

theorem index?_some_of_range {α : Type} (l : List α) (i : Int) (h0 : 0 ≤ i)
    (h1 : i < (l.length : Int)) : ∃ a, index? l i = some a := by
  unfold index?
  rw [if_pos h0]
  have : i.toNat < l.length := by omega
  exact ⟨l[i.toNat], List.getElem?_eq_getElem this⟩

theorem index?_mem {α : Type} (l : List α) (i : Int) (a : α) (h : index? l i = some a) :
    a ∈ l := by
  unfold index? at h
  split at h
  · exact List.mem_iff_getElem?.2 ⟨_, h⟩
  · cases h

theorem setIndex_setIndex_self {α : Type} (l : List α) (i : Int) (a b : α)
    (h : index? l i = some b) : setIndex (setIndex l i a) i b = l := by
  unfold index? at h
  unfold setIndex
  split at h
  · rw [List.set_set]
    apply List.ext_getElem?
    intro n
    rw [List.getElem?_set]
    split
    · rename_i hn
      subst hn
      split
      · exact h.symm
      · rename_i hlt
        rw [List.getElem?_eq_none (Nat.le_of_not_lt hlt)]
    · rfl
  · cases h

theorem length_setIndex {α : Type} (l : List α) (i : Int) (a : α) :
    (setIndex l i a).length = l.length := by
  unfold setIndex
  simp

theorem wellFormed_drainOne (q : ShardQueue) (s : Int) (h : WellFormed q) :
    WellFormed (drainOne q s) := by
  obtain ⟨h1, h2, h3, h4, h5, h6, h7, h8⟩ := h
  have hr := advance_range q.r q.size h3 h4 h2
  refine ⟨h1, h2, hr.1, hr.2, h5, ?_, h7, h8⟩
  show ((setIndex q.getters s []).length : Int) = q.size
  rw [length_setIndex]
  exact h6

/-- One pass through the loop body of the drain task, taken alone. -/
theorem runAlone_iteration (c : Conn) (q : ShardQueue) (tr : List Event)
    (triggerNum negNum shared s : Int) (hwf : WellFormed q)
    (hs : index? q.list ((wrap32 (q.r + 1)).tmod q.size) = some s)
    (hs0 : 0 ≤ s) (hs1 : s < q.size) :
    runAlone c 5 q tr (Thread.worker WorkerPc.pop triggerNum negNum shared) =
      some (drainOne q s, deal c tr (pendingOf q s),
        Thread.worker WorkerPc.count triggerNum negNum s) := by
  obtain ⟨h1, h2, h3, h4, h5, h6, h7, h8⟩ := hwf
  have hsize : q.size ≠ 0 := by omega
  obtain ⟨v, hv⟩ := index?_some_of_range q.locks s hs0 (by omega)
  have hv0 : v = 0 := h8 v (index?_mem _ _ _ hv)
  subst hv0
  obtain ⟨g, hg⟩ := index?_some_of_range q.getters s hs0 (by omega)
  have hl1 : index? (setIndex q.locks s 1) s = some 1 := index?_setIndex_self _ _ _ _ hv
  have hl2 : setIndex (setIndex q.locks s 1) s 0 = q.locks := setIndex_setIndex_self _ _ _ _ hv
  simp only [runAlone, Thread.step, workerStep, lockStep, unlockStep, hsize, if_false, hs, hv,
    if_true, hg, hl1, hl2, drainOne, pendingOf, Option.getD_some]
theorem runAlone_add (c : Conn) (m n : Nat) :
    ∀ (q : ShardQueue) (tr : List Event) (t : Thread),
      runAlone c (m + n) q tr t =
        (runAlone c m q tr t).bind (fun r => runAlone c n r.1 r.2.1 r.2.2) := by
  induction m with
  | zero =>
    intro q tr t
    simp [runAlone]
  | succ m ih =>
    intro q tr t
    rw [Nat.succ_add]
    simp only [runAlone]
    split
    · exact ih _ _ _
    · rfl

/-- A whole loop iteration that does not reconcile the trigger counter. -/
theorem runAlone_iteration_continue (c : Conn) (q : ShardQueue) (tr : List Event)
    (triggerNum negNum shared s : Int) (hwf : WellFormed q)
    (hs : index? q.list ((wrap32 (q.r + 1)).tmod q.size) = some s)
    (hs0 : 0 ≤ s) (hs1 : s < q.size) (hpos : triggerNum > 0)
    (hcnt : wrap32 (triggerNum + wrap32 (negNum - 1)) ≠ 0) :
    runAlone c 6 q tr (Thread.worker WorkerPc.pop triggerNum negNum shared) =
      some (drainOne q s, deal c tr (pendingOf q s),
        Thread.worker WorkerPc.pop triggerNum (wrap32 (negNum - 1)) s) := by
  rw [show (6 : Nat) = 5 + 1 from rfl, runAlone_add,
    runAlone_iteration c q tr triggerNum negNum shared s hwf hs hs0 hs1]
  simp only [Option.bind, runAlone, Thread.step, workerStep, hcnt, if_false, loopHead, hpos,
    if_true]

/-- The loop iteration that brings the trigger counter to zero. -/
theorem runAlone_iteration_last (c : Conn) (q : ShardQueue) (tr : List Event)
    (triggerNum negNum shared s : Int) (hwf : WellFormed q)
    (hs : index? q.list ((wrap32 (q.r + 1)).tmod q.size) = some s)
    (hs0 : 0 ≤ s) (hs1 : s < q.size)
    (hcnt : wrap32 (triggerNum + wrap32 (negNum - 1)) = 0)
    (hzero : wrap32 (q.trigger + wrap32 (negNum - 1)) = 0) :
    runAlone c 6 q tr (Thread.worker WorkerPc.pop triggerNum negNum shared) =
      some ({ drainOne q s with trigger := 0 }, deal c tr (pendingOf q s),
        Thread.worker WorkerPc.flush 0 0 s) := by
  rw [show (6 : Nat) = 5 + 1 from rfl, runAlone_add,
    runAlone_iteration c q tr triggerNum negNum shared s hwf hs hs0 hs1]
  have hz : wrap32 ((drainOne q s).trigger + wrap32 (negNum - 1)) = 0 := hzero
  simp only [Option.bind, runAlone, Thread.step, workerStep, hcnt, if_true, hz, loopHead,
    gt_iff_lt, lt_self_iff_false, if_false]

theorem ringNext_head (q : ShardQueue) (n : Nat) (hwf : WellFormed q) :
    ∃ s, index? q.list ((wrap32 (q.r + 1)).tmod q.size) = some s ∧
      ringNext q.list q.size q.r (n + 1) = s :: ringNext (drainOne q s).list (drainOne q s).size
        (drainOne q s).r n := by
  obtain ⟨h1, h2, h3, h4, h5, h6, h7, h8⟩ := hwf
  have hr := advance_range q.r q.size h3 h4 h2
  obtain ⟨s, hs⟩ := index?_some_of_range q.list _ hr.1 (by omega)
  refine ⟨s, hs, ?_⟩
  simp only [ringNext, hs, Option.getD_some, drainOne]

/-- The first `k` iterations of a pass that needs more than `k`. -/
theorem runAlone_loop (c : Conn) (t : Nat) (ht : (t : Int) < 2147483648) :
    ∀ (k : Nat) (q : ShardQueue) (tr : List Event) (shared : Int) (j : Nat),
      WellFormed q → j + k < t →
      (∀ x ∈ ringNext q.list q.size q.r k, 0 ≤ x ∧ x < q.size) →
      ∃ sh, runAlone c (6 * k) q tr (Thread.worker WorkerPc.pop t (-(j : Int)) shared) =
        some (drained q (ringNext q.list q.size q.r k),
          drainTrace c q tr (ringNext q.list q.size q.r k),
          Thread.worker WorkerPc.pop t (-((j + k : Nat) : Int)) sh) := by
  intro k
  induction k with
  | zero =>
    intro q tr shared j _ _ _
    exact ⟨shared, by simp [runAlone, ringNext, drained, drainTrace]⟩
  | succ k ih =>
    intro q tr shared j hwf hjk hvalid
    obtain ⟨s, hs, hring⟩ := ringNext_head q k hwf
    rw [hring] at hvalid ⊢
    have hsv := hvalid s (List.mem_cons_self _ _)
    have hneg : wrap32 (-(j : Int) - 1) = -((j + 1 : Nat) : Int) := by
      rw [wrap32_of_range _ (by omega) (by omega)]
      push_cast
      ring
    have hcnt : wrap32 ((t : Int) + wrap32 (-(j : Int) - 1)) ≠ 0 := by
      rw [hneg, wrap32_of_range _ (by push_cast; omega) (by push_cast; omega)]
      push_cast
      omega
    have hit := runAlone_iteration_continue c q tr t (-(j : Int)) shared s hwf hs hsv.1 hsv.2
      (by omega) hcnt
    rw [hneg] at hit
    obtain ⟨sh, hrest⟩ := ih (drainOne q s) (deal c tr (pendingOf q s)) s (j + 1)
      (wellFormed_drainOne q s hwf) (by omega)
      (fun x hx => hvalid x (List.mem_cons_of_mem _ hx))
    refine ⟨sh, ?_⟩
    rw [show 6 * (k + 1) = 6 + 6 * k by ring, runAlone_add, hit]
    simp only [Option.bind, drained, drainTrace]
    rw [hrest]
    congr 3
    push_cast
    ring_nf
theorem drained_append (q : ShardQueue) (a b : List Int) :
    drained q (a ++ b) = drained (drained q a) b := by
  induction a generalizing q with
  | nil => rfl
  | cons s a ih => exact ih (drainOne q s)

theorem drainTrace_append (c : Conn) (q : ShardQueue) (tr : List Event) (a b : List Int) :
    drainTrace c q tr (a ++ b) = drainTrace c (drained q a) (drainTrace c q tr a) b := by
  induction a generalizing q tr with
  | nil => rfl
  | cons s a ih => exact ih (drainOne q s) _

theorem wellFormed_drained (q : ShardQueue) (ss : List Int) (h : WellFormed q) :
    WellFormed (drained q ss) := by
  induction ss generalizing q with
  | nil => exact h
  | cons s ss ih => exact ih _ (wellFormed_drainOne q s h)

theorem drained_trigger (q : ShardQueue) (ss : List Int) :
    (drained q ss).trigger = q.trigger ∧ (drained q ss).size = q.size := by
  induction ss generalizing q with
  | nil => exact ⟨rfl, rfl⟩
  | cons s ss ih => exact ih (drainOne q s)

theorem ringNext_snoc (k : Nat) :
    ∀ q : ShardQueue, ringNext q.list q.size q.r (k + 1) =
      ringNext q.list q.size q.r k ++
        ringNext (drained q (ringNext q.list q.size q.r k)).list
          (drained q (ringNext q.list q.size q.r k)).size
          (drained q (ringNext q.list q.size q.r k)).r 1 := by
  induction k with
  | zero =>
    intro q
    rfl
  | succ k ih =>
    intro q
    have h := ih (drainOne q ((index? q.list ((wrap32 (q.r + 1)).tmod q.size)).getD 0))
    show _ :: ringNext q.list q.size _ (k + 1) = (_ :: ringNext q.list q.size _ k) ++ _
    rw [List.cons_append]
    congr 1

theorem ringNext_mem_mono (l : List Int) (size : Int) (x : Int) (n : Nat) :
    ∀ (k : Nat) (r : Int), x ∈ ringNext l size r k → x ∈ ringNext l size r (k + n) := by
  intro k
  induction k with
  | zero =>
    intro r h
    cases h
  | succ k ih =>
    intro r h
    rw [show k + 1 + n = (k + n) + 1 by omega]
    simp only [ringNext, List.mem_cons] at h ⊢
    rcases h with h | h
    · exact Or.inl h
    · exact Or.inr (ih _ h)

/-- A whole pass of the drain task up to (not including) `q.flush()`. -/
theorem runAlone_pass (c : Conn) (k : Nat) (q : ShardQueue) (tr : List Event)
    (a b shared : Int) (hwf : WellFormed q) (htrig : q.trigger = ((k + 1 : Nat) : Int))
    (hk : ((k + 1 : Nat) : Int) < 2147483648)
    (hvalid : ∀ x ∈ ringNext q.list q.size q.r (k + 1), 0 ≤ x ∧ x < q.size) :
    ∃ sh, runAlone c (1 + 6 * (k + 1)) q tr (Thread.worker WorkerPc.loadTrigger a b shared) =
      some ({ drained q (ringNext q.list q.size q.r (k + 1)) with trigger := 0 },
        drainTrace c q tr (ringNext q.list q.size q.r (k + 1)),
        Thread.worker WorkerPc.flush 0 0 sh) := by
  have hpos : ((k + 1 : Nat) : Int) > 0 := by
    push_cast
    omega
  have hfirst : runAlone c 1 q tr (Thread.worker WorkerPc.loadTrigger a b shared) =
      some (q, tr, Thread.worker WorkerPc.pop ((k + 1 : Nat) : Int) 0 shared) := by
    simp only [runAlone, Thread.step, workerStep, loopHead, htrig, hpos, if_true]
  obtain ⟨sh, hloop⟩ := runAlone_loop c (k + 1) hk k q tr shared 0 hwf (by omega)
    (fun x hx => hvalid x (ringNext_mem_mono _ _ _ 1 k _ hx))
  simp only [Nat.cast_zero, neg_zero] at hloop
  have hwfk := wellFormed_drained q (ringNext q.list q.size q.r k) hwf
  obtain ⟨s, hs, -⟩ := ringNext_head (drained q (ringNext q.list q.size q.r k)) 0 hwfk
  have hring : ringNext (drained q (ringNext q.list q.size q.r k)).list
      (drained q (ringNext q.list q.size q.r k)).size
      (drained q (ringNext q.list q.size q.r k)).r 1 = [s] := by
    simp only [ringNext, hs, Option.getD_some]
  have hsnoc := ringNext_snoc k q
  rw [hring] at hsnoc
  have hsv := hvalid s (by rw [hsnoc]; simp)
  have hdt := drained_trigger q (ringNext q.list q.size q.r k)
  have hneg : wrap32 (-((0 + k : Nat) : Int) - 1) = -((k + 1 : Nat) : Int) := by
    rw [wrap32_of_range _ (by push_cast; omega) (by push_cast; omega)]
    push_cast
    ring
  have hlast := runAlone_iteration_last c (drained q (ringNext q.list q.size q.r k))
    (drainTrace c q tr (ringNext q.list q.size q.r k)) ((k + 1 : Nat) : Int)
    (-((0 + k : Nat) : Int)) sh s hwfk hs hsv.1 (by rw [hdt.2]; exact hsv.2)
    (by rw [hneg]; unfold wrap32; omega)
    (by rw [hneg, hdt.1, htrig]; unfold wrap32; omega)
  refine ⟨s, ?_⟩
  rw [show 1 + 6 * (k + 1) = 1 + (6 * k + 6) by ring, runAlone_add, hfirst]
  simp only [Option.bind]
  rw [runAlone_add, hloop]
  simp only [Option.bind]
  rw [hlast, hsnoc, drained_append, drainTrace_append]
  rfl
theorem index?_setIndex_of_ne {α : Type} (l : List α) (i j : Int) (b : α) (h0 : 0 ≤ i)
    (hne : i ≠ j) : index? (setIndex l i b) j = index? l j := by
  unfold index? setIndex
  by_cases hj : 0 ≤ j
  · rw [if_pos hj, if_pos hj]
    have : i.toNat ≠ j.toNat := by omega
    rw [List.getElem?_set_ne this]
  · rw [if_neg hj, if_neg hj]

theorem drainTrace_eq_dealAll (c : Conn) (ss : List Int) :
    ∀ (q : ShardQueue) (tr : List Event), (∀ x ∈ ss, 0 ≤ x) → ss.Nodup →
      drainTrace c q tr ss = dealAll c tr (ss.map (pendingOf q)) := by
  induction ss with
  | nil =>
    intro q tr _ _
    rfl
  | cons s rest ih =>
    intro q tr hpos hnd
    have hs0 := hpos s (List.mem_cons_self _ _)
    rw [List.nodup_cons] at hnd
    have hmap : rest.map (pendingOf (drainOne q s)) = rest.map (pendingOf q) := by
      apply List.map_congr_left
      intro x hx
      have hne : s ≠ x := by
        intro h
        exact hnd.1 (h ▸ hx)
      show (index? (setIndex q.getters s []) x).getD [] = (index? q.getters x).getD []
      rw [index?_setIndex_of_ne _ _ _ _ hs0 hne]
    simp only [drainTrace, List.map_cons, dealAll]
    rw [ih _ _ (fun x hx => hpos x (List.mem_cons_of_mem _ hx)) hnd.2, hmap]

theorem drained_getters_length (q : ShardQueue) (ss : List Int) :
    (drained q ss).getters.length = q.getters.length := by
  induction ss generalizing q with
  | nil => rfl
  | cons s ss ih =>
    rw [drained, ih]
    exact length_setIndex _ _ _

theorem drained_keeps_empty (x : Int) (hx : 0 ≤ x) (ss : List Int) :
    ∀ q : ShardQueue, (∀ y ∈ ss, 0 ≤ y) → index? q.getters x = some [] →
      index? (drained q ss).getters x = some [] := by
  induction ss with
  | nil =>
    intro q _ h
    exact h
  | cons s rest ih =>
    intro q hpos h
    apply ih _ (fun y hy => hpos y (List.mem_cons_of_mem _ hy))
    show index? (setIndex q.getters s []) x = some []
    by_cases hsx : s = x
    · subst hsx
      exact index?_setIndex_self _ _ _ _ h
    · rw [index?_setIndex_of_ne _ _ _ _ (hpos s (List.mem_cons_self _ _)) hsx]
      exact h

theorem drained_getters_empty (ss : List Int) :
    ∀ q : ShardQueue, (∀ y ∈ ss, 0 ≤ y ∧ y < (q.getters.length : Int)) →
      ∀ x ∈ ss, index? (drained q ss).getters x = some [] := by
  induction ss with
  | nil =>
    intro q _ x hx
    cases hx
  | cons s rest ih =>
    intro q hvalid x hx
    have hrest : ∀ y ∈ rest, 0 ≤ y ∧ y < ((drainOne q s).getters.length : Int) := by
      intro y hy
      have := hvalid y (List.mem_cons_of_mem _ hy)
      show 0 ≤ y ∧ y < ((setIndex q.getters s []).length : Int)
      rw [length_setIndex]
      exact this
    rcases List.mem_cons.1 hx with hxs | hxr
    · subst hxs
      have hv := hvalid x (List.mem_cons_self _ _)
      obtain ⟨g, hg⟩ := index?_some_of_range q.getters x hv.1 hv.2
      exact drained_keeps_empty x hv.1 rest (drainOne q x) (fun y hy => (hrest y hy).1)
        (index?_setIndex_self _ _ _ _ hg)
    · exact ih _ hrest x hxr

theorem dealLoop_countP_isFlush (c : Conn) (gts : List WriterGetter) :
    ∀ tr : List Event, List.countP Event.isFlush (dealLoop c tr gts) =
      List.countP Event.isFlush tr := by
  induction gts with
  | nil =>
    intro tr
    rfl
  | cons g rest ih =>
    intro tr
    rw [dealLoop]
    split
    · rw [ih]
      simp [List.countP_append, Event.isFlush]
    · split
      · simp [List.countP_append, Event.isFlush, List.countP_cons]
      · rw [ih]
        simp [List.countP_append, Event.isFlush, List.countP_cons]

theorem dealAll_countP_isFlush (c : Conn) (lists : List (List WriterGetter)) :
    ∀ tr : List Event, List.countP Event.isFlush (dealAll c tr lists) =
      List.countP Event.isFlush tr := by
  induction lists with
  | nil =>
    intro tr
    rfl
  | cons gts rest ih =>
    intro tr
    rw [dealAll, ih, deal, dealLoop_countP_isFlush]
    simp [List.countP_append, Event.isFlush]

theorem set_of_getElem? {α : Type} (l : List α) (i : Nat) (a : α) (h : l[i]? = some a) :
    l.set i a = l := by
  apply List.ext_getElem?
  intro n
  rw [List.getElem?_set]
  split
  · rename_i hn
    subst hn
    split
    · exact h.symm
    · rename_i hlt
      rw [List.getElem?_eq_none (Nat.le_of_not_lt hlt)]
  · rfl

/-- Steps of one goroutine taken alone are steps of the program in which the
scheduler picks that goroutine every time. -/
theorem run_of_runAlone (c : Conn) (i : Nat) :
    ∀ (n : Nat) (s : Sys) (t : Thread) (q1 : ShardQueue) (tr1 : List Event) (t1 : Thread),
      s.panicked = false → s.threads[i]? = some t →
      runAlone c n s.q s.trace t = some (q1, tr1, t1) →
      Sys.run c s (List.replicate n (Action.run i)) =
        { q := q1, trace := tr1, threads := s.threads.set i t1, panicked := false } := by
  intro n
  induction n with
  | zero =>
    intro s t q1 tr1 t1 hp ht hrun
    simp only [runAlone, Option.some.injEq, Prod.mk.injEq] at hrun
    obtain ⟨h1, h2, h3⟩ := hrun
    subst h1 h2 h3
    obtain ⟨q, tr, ts, p⟩ := s
    simp only at hp ht
    subst hp
    simp [Sys.run, set_of_getElem? ts i t ht]
  | succ n ih =>
    intro s t q1 tr1 t1 hp ht hrun
    simp only [runAlone] at hrun
    obtain ⟨q, tr, ts, p⟩ := s
    simp only at hp ht hrun
    subst hp
    cases hnext : (t.step c q tr).next with
    | goto t2 =>
      rw [hnext] at hrun
      simp only at hrun
      have hlt : i < ts.length := by
        by_contra hge
        rw [List.getElem?_eq_none (Nat.le_of_not_lt hge)] at ht
        cases ht
      have hstep : Sys.step c { q := q, trace := tr, threads := ts, panicked := false }
          (Action.run i) =
          { q := (t.step c q tr).q, trace := (t.step c q tr).trace, threads := ts.set i t2,
            panicked := false } := by
        simp [Sys.step, ht, hnext, afterStep]
      rw [List.replicate_succ, Sys.run, List.foldl_cons, hstep]
      have key := ih ⟨(t.step c q tr).q, (t.step c q tr).trace, ts.set i t2, false⟩ t2 q1 tr1 t1
        rfl (by simp [List.getElem?_set_self hlt]) hrun
      rw [Sys.run] at key
      rw [key]
      simp [List.set_set]
    | ret =>
      rw [hnext] at hrun
      cases hrun
    | spawn =>
      rw [hnext] at hrun
      cases hrun
    | panic =>
      rw [hnext] at hrun
      cases hrun
theorem runAlone_loadTrigger (c : Conn) (q : ShardQueue) (tr : List Event) (a b shared : Int)
    (hpos : q.trigger > 0) :
    runAlone c 1 q tr (Thread.worker WorkerPc.loadTrigger a b shared) =
      some (q, tr, Thread.worker WorkerPc.pop q.trigger 0 shared) := by
  simp only [runAlone, Thread.step, workerStep, loopHead, hpos, if_true]

theorem runAlone_flush (c : Conn) (q : ShardQueue) (tr : List Event) (a b shared : Int) :
    runAlone c 1 q tr (Thread.worker WorkerPc.flush a b shared) =
      some (q, flush c tr, Thread.worker WorkerPc.storeRunNum a b shared) := by
  simp only [runAlone, Thread.step, workerStep]

/-- On a ring that holds every triggered shard once: let a drain pass start
with the trigger counter at `t ≥ 1` on a well-formed queue whose next `t` ring
entries are distinct shards in range, and let no other goroutine run.  Then for every `k < t` the task is at the head of
the loop body after `k` iterations; after exactly `t` iterations it has left
the loop, the events are those of `deal` on the `t` shards in ring order, and
the trigger counter is zero; its next step is the one `Flush`, issued after
the last shard; `deal` never issues a `Flush`, and the drained shards are
empty. -/
theorem drain_pass_single_flush (c : Conn) (s : Sys) (i t : Nat) (a b shared : Int)
    (hp : s.panicked = false)
    (hthr : s.threads[i]? = some (Thread.worker WorkerPc.loadTrigger a b shared))
    (hwf : WellFormed s.q) (ht : 1 ≤ t) (htrig : s.q.trigger = (t : Int))
    (ht32 : (t : Int) < 2147483648)
    (hvalid : ∀ x ∈ ringNext s.q.list s.q.size s.q.r t, 0 ≤ x ∧ x < s.q.size)
    (hnodup : (ringNext s.q.list s.q.size s.q.r t).Nodup) :
    (∀ k, k < t → ∃ sh, (Sys.run c s (List.replicate (1 + 6 * k) (Action.run i))).threads =
      s.threads.set i (Thread.worker WorkerPc.pop (t : Int) (-(k : Int)) sh)) ∧
    (∃ sh, (Sys.run c s (List.replicate (1 + 6 * t) (Action.run i))).threads =
      s.threads.set i (Thread.worker WorkerPc.flush 0 0 sh)) ∧
    (Sys.run c s (List.replicate (1 + 6 * t) (Action.run i))).trace =
      dealAll c s.trace ((ringNext s.q.list s.q.size s.q.r t).map (pendingOf s.q)) ∧
    (Sys.run c s (List.replicate (1 + 6 * t) (Action.run i))).q.trigger = 0 ∧
    (Sys.run c s (List.replicate (1 + 6 * t + 1) (Action.run i))).trace =
      flush c (dealAll c s.trace ((ringNext s.q.list s.q.size s.q.r t).map (pendingOf s.q))) ∧
    (∃ sh, (Sys.run c s (List.replicate (1 + 6 * t + 1) (Action.run i))).threads =
      s.threads.set i (Thread.worker WorkerPc.storeRunNum 0 0 sh)) ∧
    (Sys.run c s (List.replicate (1 + 6 * t + 1) (Action.run i))).q.trigger = 0 ∧
    (∀ x ∈ ringNext s.q.list s.q.size s.q.r t,
      index? (Sys.run c s (List.replicate (1 + 6 * t + 1) (Action.run i))).q.getters x =
        some []) ∧
    List.countP Event.isFlush
        (dealAll c s.trace ((ringNext s.q.list s.q.size s.q.r t).map (pendingOf s.q))) =
      List.countP Event.isFlush s.trace := by
  obtain ⟨k, rfl⟩ : ∃ k, t = k + 1 := ⟨t - 1, by omega⟩
  have hpos : s.q.trigger > 0 := by
    rw [htrig]
    push_cast
    omega
  have hshards0 : ∀ x ∈ ringNext s.q.list s.q.size s.q.r (k + 1), 0 ≤ x :=
    fun x hx => (hvalid x hx).1
  -- the pass up to the flush
  obtain ⟨sh, hpass⟩ := runAlone_pass c k s.q s.trace a b shared hwf htrig ht32 hvalid
  have hrun1 := run_of_runAlone c i _ s _ _ _ _ hp hthr hpass
  have hpass2 : runAlone c (1 + 6 * (k + 1) + 1) s.q s.trace
      (Thread.worker WorkerPc.loadTrigger a b shared) =
      some ({ drained s.q (ringNext s.q.list s.q.size s.q.r (k + 1)) with trigger := 0 },
        flush c (drainTrace c s.q s.trace (ringNext s.q.list s.q.size s.q.r (k + 1))),
        Thread.worker WorkerPc.storeRunNum 0 0 sh) := by
    rw [runAlone_add, hpass]
    simp only [Option.bind]
    exact runAlone_flush c _ _ 0 0 sh
  have hrun2 := run_of_runAlone c i _ s _ _ _ _ hp hthr hpass2
  have htrace := drainTrace_eq_dealAll c _ s.q s.trace hshards0 hnodup
  refine ⟨?_, ⟨sh, ?_⟩, ?_, ?_, ?_, ⟨sh, ?_⟩, ?_, ?_, ?_⟩
  · intro j hj
    obtain ⟨sh1, hloop⟩ := runAlone_loop c (k + 1) ht32 j s.q s.trace shared 0 hwf (by omega)
      (fun x hx => by
        have := ringNext_mem_mono s.q.list s.q.size x (k + 1 - j) j s.q.r hx
        rw [show j + (k + 1 - j) = k + 1 by omega] at this
        exact hvalid x this)
    have hj1 : runAlone c (1 + 6 * j) s.q s.trace
        (Thread.worker WorkerPc.loadTrigger a b shared) =
        some (drained s.q (ringNext s.q.list s.q.size s.q.r j),
          drainTrace c s.q s.trace (ringNext s.q.list s.q.size s.q.r j),
          Thread.worker WorkerPc.pop ((k + 1 : Nat) : Int) (-(j : Int)) sh1) := by
      rw [runAlone_add, runAlone_loadTrigger c s.q s.trace a b shared hpos]
      simp only [Option.bind]
      rw [htrig]
      simpa using hloop
    refine ⟨sh1, ?_⟩
    rw [run_of_runAlone c i _ s _ _ _ _ hp hthr hj1]
  · rw [hrun1]
  · rw [hrun1, ← htrace]
  · rw [hrun1]
  · rw [hrun2, ← htrace]
  · rw [hrun2]
  · rw [hrun2]
  · intro x hx
    rw [hrun2]
    show index? (drained s.q (ringNext s.q.list s.q.size s.q.r (k + 1))).getters x = some []
    apply drained_getters_empty _ s.q _ x hx
    intro y hy
    have := hvalid y hy
    have hlen := hwf.2.2.2.2.2.1
    omega
  · exact dealAll_countP_isFlush c _ _

theorem drain_pass_single_flush_witness :
    WellFormed drainSys.q ∧ drainSys.q.trigger = ((2 : Nat) : Int) ∧
      ringNext drainSys.q.list drainSys.q.size drainSys.q.r 2 = [1, 0] ∧
      (Sys.run goodConn drainSys (List.replicate (1 + 6 * 2 + 1) (Action.run 0))).trace =
        flush goodConn (dealAll goodConn drainSys.trace
          ((ringNext drainSys.q.list drainSys.q.size drainSys.q.r 2).map (pendingOf drainSys.q))) :=
  ⟨by unfold WellFormed; decide, by decide, by decide,
    (drain_pass_single_flush goodConn drainSys 0 2 0 0 0 (by decide) (by decide)
      (by unfold WellFormed; decide) (by decide) (by decide) (by decide) (by decide)
      (by decide)).2.2.2.2.1⟩

/-! ## admission of the drain task -/

theorem countP_set_same {α : Type} (p : α → Bool) (t t1 : α) :
    ∀ (ts : List α) (i : Nat), ts[i]? = some t → p t1 = p t →
      List.countP p (ts.set i t1) = List.countP p ts := by
  intro ts
  induction ts with
  | nil =>
    intro i h _
    cases h
  | cons x xs ih =>
    intro i h hp
    cases i with
    | zero =>
      simp only [List.getElem?_cons_zero, Option.some.injEq] at h
      subst h
      simp [List.countP_cons, hp]
    | succ i =>
      simp only [List.getElem?_cons_succ] at h
      simp [List.countP_cons, ih i h hp]

theorem countP_set_drop {α : Type} (p : α → Bool) (t t1 : α) :
    ∀ (ts : List α) (i : Nat), ts[i]? = some t → p t = true → p t1 = false →
      List.countP p (ts.set i t1) + 1 = List.countP p ts := by
  intro ts
  induction ts with
  | nil =>
    intro i h _ _
    cases h
  | cons x xs ih =>
    intro i h hp hp1
    cases i with
    | zero =>
      simp only [List.getElem?_cons_zero, Option.some.injEq] at h
      subst h
      simp [List.countP_cons, hp, hp1]
    | succ i =>
      simp only [List.getElem?_cons_succ] at h
      have := ih i h hp hp1
      simp only [List.set_cons_succ, List.countP_cons]
      omega

theorem countP_eraseIdx_false {α : Type} (p : α → Bool) (t : α) :
    ∀ (ts : List α) (i : Nat), ts[i]? = some t → p t = false →
      List.countP p (ts.eraseIdx i) = List.countP p ts := by
  intro ts
  induction ts with
  | nil =>
    intro i h _
    cases h
  | cons x xs ih =>
    intro i h hp
    cases i with
    | zero =>
      simp only [List.getElem?_cons_zero, Option.some.injEq] at h
      subst h
      simp [List.countP_cons, hp]
    | succ i =>
      simp only [List.getElem?_cons_succ] at h
      simp [List.countP_cons, ih i h hp]

theorem lockStep_summary (q : ShardQueue) (tr : List Event) (shard : Int) (self after : Thread) :
    (lockStep q tr shard self after).q.runNum = q.runNum ∧
      ((lockStep q tr shard self after).next = Next.goto self ∨
        (lockStep q tr shard self after).next = Next.goto after ∨
        (lockStep q tr shard self after).next = Next.panic) := by
  unfold lockStep
  split
  · exact ⟨rfl, Or.inr (Or.inr rfl)⟩
  · split
    · exact ⟨rfl, Or.inr (Or.inl rfl)⟩
    · exact ⟨rfl, Or.inl rfl⟩

theorem unlockStep_summary (q : ShardQueue) (tr : List Event) (shard : Int) (after : Next) :
    (unlockStep q tr shard after).q.runNum = q.runNum ∧
      ((unlockStep q tr shard after).next = after ∨
        (unlockStep q tr shard after).next = Next.panic) := by
  unfold unlockStep
  split
  · exact ⟨rfl, Or.inr rfl⟩
  · exact ⟨rfl, Or.inl rfl⟩

/-- What one step of a goroutine does to the admission counter and to the
goroutine's being an admitted drain pass. -/
theorem step_summary (c : Conn) (q : ShardQueue) (tr : List Event) (t : Thread) :
    ((t.step c q tr).q.runNum = q.runNum ∧
      ((∃ t1, (t.step c q tr).next = Next.goto t1 ∧ t1.admitted = t.admitted) ∨
        (t.step c q tr).next = Next.panic ∨
        ((t.step c q tr).next = Next.ret ∧ t.admitted = false))) ∨
    (t.admitted = true ∧ (t.step c q tr).q.runNum = 0 ∧
      ∃ t1, (t.step c q tr).next = Next.goto t1 ∧ t1.admitted = false) ∨
    (t.admitted = false ∧ (t.step c q tr).q.runNum = wrap32 (q.runNum + 1) ∧
      (t.step c q tr).next =
        if wrap32 (q.runNum + 1) > 1 then Next.ret else Next.spawn) := by
  cases t with
  | add pc gts shard trigger =>
    cases pc with
    | loadState =>
      left
      simp only [Thread.step, addStep]
      split
      · exact ⟨rfl, Or.inr (Or.inr ⟨rfl, rfl⟩)⟩
      · exact ⟨rfl, Or.inl ⟨_, rfl, rfl⟩⟩
    | addIdx =>
      left
      simp only [Thread.step, addStep]
      split
      · exact ⟨rfl, Or.inr (Or.inl rfl)⟩
      · exact ⟨rfl, Or.inl ⟨_, rfl, rfl⟩⟩
    | lock =>
      left
      simp only [Thread.step, addStep]
      obtain ⟨h1, h2⟩ := lockStep_summary q tr shard (Thread.add AddPc.lock gts shard trigger)
        (Thread.add AddPc.append gts shard trigger)
      refine ⟨h1, ?_⟩
      rcases h2 with h | h | h
      · exact Or.inl ⟨_, h, rfl⟩
      · exact Or.inl ⟨_, h, rfl⟩
      · exact Or.inr (Or.inl h)
    | append =>
      left
      simp only [Thread.step, addStep]
      split
      · exact ⟨rfl, Or.inr (Or.inl rfl)⟩
      · exact ⟨rfl, Or.inl ⟨_, rfl, rfl⟩⟩
    | unlock =>
      left
      simp only [Thread.step, addStep]
      obtain ⟨h1, h2⟩ := unlockStep_summary q tr shard
        (if trigger then Next.goto (Thread.add AddPc.listLock gts shard trigger) else Next.ret)
      refine ⟨h1, ?_⟩
      rcases h2 with h | h
      · rw [h]
        split
        · exact Or.inl ⟨_, rfl, rfl⟩
        · exact Or.inr (Or.inr ⟨rfl, rfl⟩)
      · exact Or.inr (Or.inl h)
    | listLock =>
      left
      simp only [Thread.step, addStep]
      split
      · exact ⟨rfl, Or.inl ⟨_, rfl, rfl⟩⟩
      · exact ⟨rfl, Or.inl ⟨_, rfl, rfl⟩⟩
    | push =>
      left
      simp only [Thread.step, addStep]
      split
      · exact ⟨rfl, Or.inr (Or.inl rfl)⟩
      · split
        · exact ⟨rfl, Or.inr (Or.inl rfl)⟩
        · exact ⟨rfl, Or.inl ⟨_, rfl, rfl⟩⟩
    | listUnlock =>
      left
      exact ⟨rfl, Or.inl ⟨_, rfl, rfl⟩⟩
    | addTrigger =>
      left
      simp only [Thread.step, addStep]
      refine ⟨trivial, ?_⟩
      split
      · exact Or.inr (Or.inr ⟨rfl, rfl⟩)
      · exact Or.inl ⟨_, rfl, rfl⟩
    | foreach =>
      right
      right
      exact ⟨rfl, rfl, rfl⟩
  | worker pc triggerNum negNum shared =>
    cases pc with
    | loadTrigger =>
      left
      simp only [Thread.step, workerStep, loopHead]
      refine ⟨trivial, ?_⟩
      split
      · exact Or.inl ⟨_, rfl, rfl⟩
      · exact Or.inl ⟨_, rfl, rfl⟩
    | pop =>
      left
      simp only [Thread.step, workerStep]
      split
      · exact ⟨rfl, Or.inr (Or.inl rfl)⟩
      · split
        · exact ⟨rfl, Or.inr (Or.inl rfl)⟩
        · exact ⟨rfl, Or.inl ⟨_, rfl, rfl⟩⟩
    | lock =>
      left
      simp only [Thread.step, workerStep]
      obtain ⟨h1, h2⟩ := lockStep_summary q tr shared
        (Thread.worker WorkerPc.lock triggerNum negNum shared)
        (Thread.worker WorkerPc.swap triggerNum negNum shared)
      refine ⟨h1, ?_⟩
      rcases h2 with h | h | h
      · exact Or.inl ⟨_, h, rfl⟩
      · exact Or.inl ⟨_, h, rfl⟩
      · exact Or.inr (Or.inl h)
    | swap =>
      left
      simp only [Thread.step, workerStep]
      split
      · exact ⟨rfl, Or.inr (Or.inl rfl)⟩
      · exact ⟨rfl, Or.inl ⟨_, rfl, rfl⟩⟩
    | unlock =>
      left
      simp only [Thread.step, workerStep]
      obtain ⟨h1, h2⟩ := unlockStep_summary q tr shared
        (Next.goto (Thread.worker WorkerPc.deal triggerNum negNum shared))
      refine ⟨h1, ?_⟩
      rcases h2 with h | h
      · exact Or.inl ⟨_, h, rfl⟩
      · exact Or.inr (Or.inl h)
    | deal =>
      left
      exact ⟨rfl, Or.inl ⟨_, rfl, rfl⟩⟩
    | count =>
      left
      simp only [Thread.step, workerStep, loopHead]
      split
      · refine ⟨rfl, ?_⟩
        split
        · exact Or.inl ⟨_, rfl, rfl⟩
        · exact Or.inl ⟨_, rfl, rfl⟩
      · refine ⟨rfl, ?_⟩
        split
        · exact Or.inl ⟨_, rfl, rfl⟩
        · exact Or.inl ⟨_, rfl, rfl⟩
    | flush =>
      left
      exact ⟨rfl, Or.inl ⟨_, rfl, rfl⟩⟩
    | storeRunNum =>
      right
      left
      exact ⟨rfl, rfl, _, rfl, rfl⟩
    | recheck =>
      left
      simp only [Thread.step, workerStep]
      refine ⟨trivial, ?_⟩
      split
      · exact Or.inl ⟨_, rfl, rfl⟩
      · exact Or.inl ⟨_, rfl, rfl⟩
    | foreach =>
      right
      right
      exact ⟨rfl, rfl, rfl⟩
    | casState =>
      left
      exact ⟨rfl, Or.inr (Or.inr ⟨rfl, rfl⟩)⟩
  | close pc =>
    left
    cases pc with
    | casState =>
      simp only [Thread.step, closeStep]
      split
      · exact ⟨rfl, Or.inl ⟨_, rfl, rfl⟩⟩
      · exact ⟨rfl, Or.inr (Or.inr ⟨rfl, rfl⟩)⟩
    | loadState =>
      simp only [Thread.step, closeStep]
      split
      · exact ⟨rfl, Or.inl ⟨_, rfl, rfl⟩⟩
      · exact ⟨rfl, Or.inr (Or.inr ⟨rfl, rfl⟩)⟩
    | loadTrigger =>
      simp only [Thread.step, closeStep]
      split
      · exact ⟨rfl, Or.inl ⟨_, rfl, rfl⟩⟩
      · exact ⟨rfl, Or.inl ⟨_, rfl, rfl⟩⟩
    | storeState =>
      exact ⟨rfl, Or.inr (Or.inr ⟨rfl, rfl⟩)⟩
theorem admissionInv_step (c : Conn) (s : Sys) (a : Action) (hinv : AdmissionInv s)
    (hmax : s.q.runNum ≠ 2147483647) : AdmissionInv (Sys.step c s a) := by
  obtain ⟨q, tr, ts, p⟩ := s
  unfold AdmissionInv Sys.admittedWorkers at hinv ⊢
  simp only at hinv hmax
  obtain ⟨h0, h1, hcount⟩ := hinv
  cases a with
  | callAdd gts =>
    simp only [Sys.step]
    split
    · exact ⟨h0, h1, hcount⟩
    · refine ⟨h0, h1, ?_⟩
      simpa [List.countP_append, newAdd, Thread.admitted] using hcount
  | callClose =>
    simp only [Sys.step]
    split
    · exact ⟨h0, h1, hcount⟩
    · refine ⟨h0, h1, ?_⟩
      simpa [List.countP_append, newClose, Thread.admitted] using hcount
  | run i =>
    simp only [Sys.step]
    split
    · exact ⟨h0, h1, hcount⟩
    · split
      · exact ⟨h0, h1, hcount⟩
      · rename_i t ht
        simp only
        rcases step_summary c q tr t with ⟨hrun, hnext⟩ | ⟨hadm, hrun, t1, hnext, hadm1⟩ |
          ⟨hadm, hrun, hnext⟩
        · rw [hrun]
          refine ⟨h0, h1, ?_⟩
          rcases hnext with ⟨t1, hn, hadm⟩ | hn | ⟨hn, hadm⟩
          · rw [hn]
            simp only [afterStep]
            rw [countP_set_same Thread.admitted t t1 ts i ht hadm]
            exact hcount
          · rw [hn]
            exact hcount
          · rw [hn]
            simp only [afterStep]
            rw [countP_eraseIdx_false Thread.admitted t ts i ht hadm]
            exact hcount
        · rw [hrun, hnext]
          simp only [afterStep]
          have hdrop := countP_set_drop Thread.admitted t t1 ts i ht hadm hadm1
          refine ⟨le_refl _, by omega, Or.inl ⟨?_, trivial⟩⟩
          rcases hcount with ⟨hc, _⟩ | ⟨hc, _⟩ <;> omega
        · have hw : wrap32 (q.runNum + 1) = q.runNum + 1 :=
            wrap32_of_range _ (by omega) (by omega)
          have herase := countP_eraseIdx_false Thread.admitted t ts i ht hadm
          rw [hrun, hnext, hw]
          rcases hcount with ⟨hc, hz⟩ | ⟨hc, hz⟩
          · have hnot : ¬ (q.runNum + 1 > 1) := by omega
            simp only [hnot, if_false, afterStep, List.countP_append, herase, hc]
            refine ⟨by omega, by omega, Or.inr ⟨by simp [newWorker, Thread.admitted], by omega⟩⟩
          · have hgt : q.runNum + 1 > 1 := by omega
            simp only [hgt, if_true, afterStep, herase, hc]
            exact ⟨by omega, by omega, Or.inr ⟨trivial, by omega⟩⟩

theorem admissionInv_init (size : Nat) : AdmissionInv (Sys.init size) := by
  unfold AdmissionInv Sys.admittedWorkers
  simp [Sys.init, NewShardQueue]

theorem run_append (c : Conn) (s : Sys) (l : List Action) (a : Action) :
    Sys.run c s (l ++ [a]) = Sys.step c (Sys.run c s l) a := by
  simp [Sys.run, List.foldl_append]

theorem admissionInv_run (c : Conn) (size : Nat) (acts : List Action) :
    (∀ n, n ≤ acts.length →
      (Sys.run c (Sys.init size) (acts.take n)).q.runNum ≠ 2147483647) →
    AdmissionInv (Sys.run c (Sys.init size) acts) := by
  induction acts using List.reverseRecOn with
  | nil =>
    intro _
    exact admissionInv_init size
  | append_singleton l a ih =>
    intro h
    rw [run_append]
    have hl : ∀ n, n ≤ l.length →
        (Sys.run c (Sys.init size) (l.take n)).q.runNum ≠ 2147483647 := by
      intro n hn
      have := h n (by simp; omega)
      rwa [List.take_append_of_le_length hn] at this
    have hlast := h l.length (by simp)
    rw [List.take_append_of_le_length (le_refl _), List.take_length] at hlast
    exact admissionInv_step c _ a (ih hl) hlast

/-- Below the wrap of the admission counter: in every state reached from `NewShardQueue(size)` by any
interleaving of calls of `Add`, calls of `Close` and steps of goroutines, as
long as the admission counter `runNum` has not reached `2147483647` (the last
value before the `int32` wraps), at most one drain pass is between its
admission and its clearing of the counter. -/
theorem single_admitted_worker (c : Conn) (size : Nat) (acts : List Action)
    (hno : ∀ n, n ≤ acts.length →
      (Sys.run c (Sys.init size) (acts.take n)).q.runNum ≠ 2147483647) :
    (Sys.run c (Sys.init size) acts).admittedWorkers ≤ 1 := by
  obtain ⟨_, _, h⟩ := admissionInv_run c size acts hno
  rcases h with ⟨h, _⟩ | ⟨h, _⟩ <;> omega

theorem single_admitted_worker_witness :
    (∀ n, n ≤ closeBeforeFlush.length →
      (Sys.run goodConn (Sys.init 1) (closeBeforeFlush.take n)).q.runNum ≠ 2147483647) ∧
      (Sys.run goodConn (Sys.init 1) closeBeforeFlush).admittedWorkers ≤ 1 :=
  ⟨by decide, single_admitted_worker goodConn 1 closeBeforeFlush (by decide)⟩

theorem run_append_list (c : Conn) (s : Sys) (l1 l2 : List Action) :
    Sys.run c s (l1 ++ l2) = Sys.run c (Sys.run c s l1) l2 := by
  simp [Sys.run, List.foldl_append]

/-- `Add()` that finds the trigger counter above 1 after its increment. -/
theorem addEmpty_return (c : Conn) (i tg rn : Int) (h : wrap32 (tg + 1) > 1) :
    Sys.run c (ringState i tg rn) addEmptyNext = ringState (wrap32 (i + 1)) (wrap32 (tg + 1)) rn := by
  simp [Sys.run, Sys.step, addEmptyNext, ringState, newAdd, newWorker, Thread.step, addStep,
    lockStep, unlockStep, afterStep, index?, setIndex, active, nextShard, h]

/-- `Add()` that calls `foreach` and is turned away by the admission counter. -/
theorem addEmpty_rejected (c : Conn) (i tg rn : Int) (h : ¬ wrap32 (tg + 1) > 1)
    (hr : wrap32 (rn + 1) > 1) :
    Sys.run c (ringState i tg rn) addEmptyNext =
      ringState (wrap32 (i + 1)) (wrap32 (tg + 1)) (wrap32 (rn + 1)) := by
  simp [Sys.run, Sys.step, addEmptyNext, ringState, newAdd, newWorker, Thread.step, addStep,
    lockStep, unlockStep, foreachStep, afterStep, index?, setIndex, active, nextShard, h, hr]

/-- `Add()` that calls `foreach` and is admitted although a drain task is admitted. -/
theorem addEmpty_admitted (c : Conn) (i tg rn : Int) (h : ¬ wrap32 (tg + 1) > 1)
    (hr : ¬ wrap32 (rn + 1) > 1) :
    (Sys.run c (ringState i tg rn) addEmptyNext).threads = [newWorker, newWorker] := by
  simp [Sys.run, Sys.step, addEmptyNext, ringState, newAdd, newWorker, Thread.step, addStep,
    lockStep, unlockStep, foreachStep, afterStep, index?, setIndex, active, nextShard, h, hr]

theorem manyAdds_succ (n : Nat) : manyAdds (n + 1) = manyAdds n ++ addEmptyNext := by
  unfold manyAdds
  rw [List.replicate_succ', List.flatten_append, ← List.append_assoc]
  simp

theorem wrap32_wrap32_succ (m : Int) : wrap32 (wrap32 m + 1) = wrap32 (m + 1) := by
  unfold wrap32
  omega

theorem run_manyAdds (c : Conn) (n : Nat) (hn : n ≤ 4294967292) :
    Sys.run c (Sys.init 1) (manyAdds n) =
      ringState (wrap32 ((n + 1 : Nat) : Int)) (wrap32 ((n + 1 : Nat) : Int))
        (runNumAfter (n + 1)) := by
  induction n with
  | zero =>
    simp [manyAdds, Sys.run, Sys.step, addEmptyFirst, Sys.init, NewShardQueue, ringState, newAdd,
      newWorker, Thread.step, addStep, lockStep, unlockStep, foreachStep, afterStep, index?,
      setIndex, active, nextShard, wrap32, runNumAfter]
  | succ n ih =>
    rw [manyAdds_succ, run_append_list, ih (by omega)]
    by_cases hlt : n + 2 < 2147483648
    · have h1 : wrap32 (wrap32 ((n + 1 : Nat) : Int) + 1) > 1 := by
        rw [wrap32_wrap32_succ]
        unfold wrap32
        push_cast
        omega
      rw [addEmpty_return c _ _ _ h1, wrap32_wrap32_succ]
      have h2 : runNumAfter (n + 1) = 1 := by
        unfold runNumAfter
        rw [if_pos (by omega)]
      have h3 : runNumAfter (n + 1 + 1) = 1 := by
        unfold runNumAfter
        rw [if_pos (by omega)]
      rw [h2, h3]
      push_cast
      rfl
    · have h1 : ¬ wrap32 (wrap32 ((n + 1 : Nat) : Int) + 1) > 1 := by
        rw [wrap32_wrap32_succ]
        unfold wrap32
        push_cast
        omega
      have h3 : runNumAfter (n + 1 + 1) = ((n + 1 + 1 : Nat) : Int) - 2147483648 + 2 := by
        unfold runNumAfter
        rw [if_neg (by omega)]
      have hr : wrap32 (runNumAfter (n + 1) + 1) = runNumAfter (n + 1 + 1) := by
        rw [h3]
        unfold runNumAfter wrap32
        split <;> push_cast <;> omega
      have hr1 : wrap32 (runNumAfter (n + 1) + 1) > 1 := by
        rw [hr, h3]
        push_cast
        omega
      rw [addEmpty_rejected c _ _ _ h1 hr1, wrap32_wrap32_succ, hr]
      push_cast
      rfl

/-- C8 (failing input): on one shard, `4294967294` calls `Add()` (no getters)
run one after the other while the drain task started by the first is never
scheduled.  Every call finds the shard empty and triggers again; the trigger
counter wraps, so the later calls enter `foreach`; the admission counter reaches `2147483647`, wraps to `-2147483648`,
and the last call is admitted: two drain passes are admitted and neither has
cleared the counter. -/
theorem admission_counter_wraps :
    (Sys.run goodConn (Sys.init 1) (manyAdds 4294967293)).admittedWorkers = 2 := by
  have hnum : (4294967293 : Nat) = 4294967292 + 1 := rfl
  rw [hnum, manyAdds_succ, run_append_list, run_manyAdds goodConn 4294967292 (le_refl _)]
  have h1 : ¬ wrap32 (wrap32 ((4294967292 + 1 : Nat) : Int) + 1) > 1 := by
    decide
  have hr : ¬ wrap32 (runNumAfter (4294967292 + 1) + 1) > 1 := by
    decide
  unfold Sys.admittedWorkers
  rw [addEmpty_admitted goodConn _ _ _ h1 hr]
  rfl

/-! ## Add: the rotating index at the end of its range -/

/-- One more `Add(g7)` while the rotating index has not wrapped: the getter is
appended to a shard, and the index advances by one. -/
theorem addNext_threeShards (c : Conn) (i : Int) (a b d : List WriterGetter)
    (h0 : 0 ≤ i) (h1 : i < 2147483647) (ha : a ≠ []) (hb : b ≠ []) (hd : d ≠ []) :
    ∃ a2 b2 d2, a2 ≠ [] ∧ b2 ≠ [] ∧ d2 ≠ [] ∧
      Sys.run c (threeShards i a b d) addNext = threeShards (i + 1) a2 b2 d2 := by
  have hw : wrap32 (i + 1) = i + 1 := wrap32_of_range _ (by omega) (by omega)
  have hm : (i + 1).tmod 3 = (i + 1) % 3 := Int.tmod_eq_emod (by omega) (by omega)
  have hr : (i + 1) % 3 = 0 ∨ (i + 1) % 3 = 1 ∨ (i + 1) % 3 = 2 := by omega
  rcases hr with hr | hr | hr
  · refine ⟨a ++ [g7], b, d, by simp, hb, hd, ?_⟩
    simp [Sys.run, Sys.step, addNext, threeShards, newAdd, newWorker, Thread.step, addStep,
      lockStep, unlockStep, afterStep, index?, setIndex, active, nextShard, hw, hm, hr, ha]
  · refine ⟨a, b ++ [g7], d, ha, by simp, hd, ?_⟩
    simp [Sys.run, Sys.step, addNext, threeShards, newAdd, newWorker, Thread.step, addStep,
      lockStep, unlockStep, afterStep, index?, setIndex, active, nextShard, hw, hm, hr, hb]
  · refine ⟨a, b, d ++ [g7], ha, hb, by simp, ?_⟩
    simp [Sys.run, Sys.step, addNext, threeShards, newAdd, newWorker, Thread.step, addStep,
      lockStep, unlockStep, afterStep, index?, setIndex, active, nextShard, hw, hm, hr, hd]

theorem addsInTurn_succ (n : Nat) : addsInTurn (n + 1) = addsInTurn n ++ addNext := by
  unfold addsInTurn
  rw [List.replicate_succ', List.flatten_append, ← List.append_assoc]
  simp

/-- After `n + 1 ≥ 3` calls `Add(g7)` on three shards the rotating index is
`n + 1` and every shard holds a getter. -/
theorem run_addsInTurn (n : Nat) (h2 : 2 ≤ n) (hn : n ≤ 2147483646) :
    ∃ a b d, a ≠ [] ∧ b ≠ [] ∧ d ≠ [] ∧
      Sys.run goodConn (Sys.init 3) (addsInTurn n) = threeShards ((n + 1 : Nat) : Int) a b d := by
  induction n with
  | zero => omega
  | succ n ih =>
    by_cases hbase : n = 1
    · subst hbase
      refine ⟨[g7], [g7], [g7], by simp, by simp, by simp, ?_⟩
      decide
    · obtain ⟨a, b, d, ha, hb, hd, hrun⟩ := ih (by omega) (by omega)
      obtain ⟨a2, b2, d2, ha2, hb2, hd2, hstep⟩ :=
        addNext_threeShards goodConn ((n + 1 : Nat) : Int) a b d (by omega) (by omega) ha hb hd
      refine ⟨a2, b2, d2, ha2, hb2, hd2, ?_⟩
      rw [addsInTurn_succ, run_append_list, hrun, hstep]
      push_cast
      rfl

/-- C10 (failing input): `NewShardQueue(3)`, then `2147483647` calls `Add(g7)`
run one after the other; the rotating index is then `2147483647` and nothing
has failed.  In the next call of `Add` the increment wraps to `-2147483648`,
Go's truncating `%` yields shard `-2`, and the call panics at `q.lock(shard)`. -/
theorem add_shard_negative_after_wrap :
    (Sys.run goodConn (Sys.init 3) (addsInTurn 2147483646)).q.idx = 2147483647 ∧
      (Sys.run goodConn (Sys.init 3) (addsInTurn 2147483646)).panicked = false ∧
      nextShard 2147483647 3 = -2 ∧ ¬ (0 ≤ nextShard 2147483647 3) ∧
      (Sys.run goodConn (Sys.init 3)
        (addsInTurn 2147483646 ++
          [Action.callAdd [g7], Action.run 1, Action.run 1, Action.run 1])).panicked = true := by
  obtain ⟨a, b, d, _, _, _, hrun⟩ := run_addsInTurn 2147483646 (by omega) (le_refl _)
  rw [run_append_list, hrun]
  have hm : (-2147483648 : Int).tmod 3 = -2 := by decide
  refine ⟨rfl, rfl, by decide, by decide, ?_⟩
  simp [Sys.run, Sys.step, threeShards, newAdd, newWorker, Thread.step, addStep, lockStep,
    afterStep, index?, active, nextShard, wrap32, hm]

/-! ## one drain pass over an overwritten ring -/

/-- C9 (failing input): on two shards, `Add(g7)` pushes shard 1 onto the
trigger ring, `Add()` pushes shard 0, `Add(g9)` joins shard 1, and `Add(g5)`
finds shard 0 still empty and pushes it again, over the unread entry of shard
1.  The drain pass then starts with the trigger counter at 3 and no trigger
arrives during it.  It makes three iterations, brings the counter to 0 and
flushes once, but the shards it drains are 0, 0, 0 and not the pushed 1, 0, 0:
shard 1, pushed first, is never drained, and `g7` and `g9` are neither
resolved nor flushed. -/
theorem drain_pass_skips_overwritten_shard :
    (Sys.run goodConn (Sys.init 2) firstAdd).q.list = [0, 1] ∧
    (Sys.run goodConn (Sys.init 2) firstAdd).q.w = 1 ∧
    (Sys.run goodConn (Sys.init 2) overwritingAdds).q.trigger = 3 ∧
    (Sys.run goodConn (Sys.init 2) overwritingAdds).q.list = [0, 0] ∧
    (Sys.run goodConn (Sys.init 2) overwritingAdds).q.r = 0 ∧
    (Sys.run goodConn (Sys.init 2) overwritingAdds).q.getters = [[g5], [g7, g9]] ∧
    (Sys.run goodConn (Sys.init 2) overwritingAdds).threads = [newWorker] ∧
    (Sys.run goodConn (Sys.init 2) overwritingAdds).trace = [] ∧
    (Sys.run goodConn (Sys.init 2) (overwritingAddsThenDrain 2)).threads =
      [Thread.worker WorkerPc.lock 3 0 0] ∧
    (Sys.run goodConn (Sys.init 2) (overwritingAddsThenDrain 8)).threads =
      [Thread.worker WorkerPc.lock 3 (-1) 0] ∧
    (Sys.run goodConn (Sys.init 2) (overwritingAddsThenDrain 14)).threads =
      [Thread.worker WorkerPc.lock 3 (-2) 0] ∧
    (Sys.run goodConn (Sys.init 2) (overwritingAddsThenDrain 19)).threads =
      [Thread.worker WorkerPc.flush 0 0 0] ∧
    (Sys.run goodConn (Sys.init 2) (overwritingAddsThenDrain 23)).threads = [] ∧
    (Sys.run goodConn (Sys.init 2) (overwritingAddsThenDrain 23)).panicked = false ∧
    (Sys.run goodConn (Sys.init 2) (overwritingAddsThenDrain 23)).q.trigger = 0 ∧
    (Sys.run goodConn (Sys.init 2) (overwritingAddsThenDrain 23)).q.getters = [[], [g7, g9]] ∧
    (Sys.run goodConn (Sys.init 2) (overwritingAddsThenDrain 23)).trace =
      [Event.writer, Event.resolve g5, Event.append 5 false, Event.writer, Event.writer,
        Event.writer, Event.flush false] := by
  decide

/-! ## Close: the return value -/

theorem lockStep_trace (q : ShardQueue) (tr : List Event) (shard : Int) (self after : Thread) :
    (lockStep q tr shard self after).trace = tr := by
  unfold lockStep
  split
  · rfl
  · split <;> rfl

theorem unlockStep_trace (q : ShardQueue) (tr : List Event) (shard : Int) (after : Next) :
    (unlockStep q tr shard after).trace = tr := by
  unfold unlockStep
  split <;> rfl

theorem addStep_trace (q : ShardQueue) (tr : List Event) (gts : List WriterGetter) (shard : Int)
    (trigger : Bool) (pc : AddPc) : (addStep q tr gts shard trigger pc).trace = tr := by
  cases pc <;> simp only [addStep, lockStep_trace, unlockStep_trace, foreachStep]
  all_goals (repeat' split) <;> rfl

theorem dealLoop_countP_isCloseError (c : Conn) (gts : List WriterGetter) :
    ∀ tr : List Event, List.countP Event.isCloseError (dealLoop c tr gts) =
      List.countP Event.isCloseError tr := by
  induction gts with
  | nil =>
    intro tr
    rfl
  | cons g rest ih =>
    intro tr
    rw [dealLoop]
    split
    · rw [ih]
      simp [List.countP_append, Event.isCloseError]
    · split
      · simp [List.countP_append, Event.isCloseError, List.countP_cons]
      · rw [ih]
        simp [List.countP_append, Event.isCloseError, List.countP_cons]

theorem workerStep_countP_isCloseError (c : Conn) (q : ShardQueue) (tr : List Event)
    (triggerNum negNum shared : Int) (pc : WorkerPc) :
    List.countP Event.isCloseError (workerStep c q tr triggerNum negNum shared pc).trace =
      List.countP Event.isCloseError tr := by
  cases pc <;> simp only [workerStep, lockStep_trace, unlockStep_trace, foreachStep]
  case deal =>
    rw [deal, dealLoop_countP_isCloseError]
    simp [List.countP_append, Event.isCloseError]
  case flush =>
    unfold flush
    split <;> simp [List.countP_append, Event.isCloseError, List.countP_cons]
  all_goals (repeat' split) <;> rfl

theorem workerStep_state_active (c : Conn) (q : ShardQueue) (tr : List Event)
    (triggerNum negNum shared : Int) (pc : WorkerPc) (h : q.state = active) :
    (workerStep c q tr triggerNum negNum shared pc).q.state = active := by
  cases pc <;> simp only [workerStep, lockStep_state, unlockStep_state, foreachStep]
  case casState =>
    have hne : q.state ≠ closing := by
      rw [h]
      decide
    rw [if_neg hne]
    exact h
  all_goals (repeat' split) <;> exact h

theorem lockStep_noClose (q : ShardQueue) (tr : List Event) (shard : Int) (self after : Thread)
    (h1 : self.isClose = false) (h2 : after.isClose = false) :
    (lockStep q tr shard self after).next.noClose = true := by
  unfold lockStep
  split
  · rfl
  · split <;> simp [Next.noClose, h1, h2]

theorem unlockStep_noClose (q : ShardQueue) (tr : List Event) (shard : Int) (after : Next)
    (h : after.noClose = true) : (unlockStep q tr shard after).next.noClose = true := by
  unfold unlockStep
  split
  · rfl
  · exact h

theorem step_noClose (c : Conn) (q : ShardQueue) (tr : List Event) (t : Thread)
    (h : t.isClose = false) : (t.step c q tr).next.noClose = true := by
  cases t with
  | add pc gts shard trigger =>
    cases pc <;> simp only [Thread.step, addStep, foreachStep]
    case lock => exact lockStep_noClose _ _ _ _ _ rfl rfl
    case unlock =>
      apply unlockStep_noClose
      split <;> rfl
    all_goals (repeat' split) <;> rfl
  | worker pc triggerNum negNum shared =>
    cases pc <;> simp only [Thread.step, workerStep, foreachStep, loopHead]
    case lock => exact lockStep_noClose _ _ _ _ _ rfl rfl
    case unlock => exact unlockStep_noClose _ _ _ _ rfl
    all_goals (repeat' split) <;> rfl
  | close pc => cases h

/-- Steps of goroutines that are not calls of `Close` record no return of
`Close` and leave an Active queue Active. -/
theorem step_not_close (c : Conn) (q : ShardQueue) (tr : List Event) (t : Thread)
    (h : t.isClose = false) :
    List.countP Event.isCloseError (t.step c q tr).trace = List.countP Event.isCloseError tr ∧
      (q.state = active → (t.step c q tr).q.state = active) := by
  cases t with
  | add pc gts shard trigger =>
    simp only [Thread.step, addStep_trace, addStep_state]
    exact ⟨trivial, fun h => h⟩
  | worker pc triggerNum negNum shared =>
    exact ⟨workerStep_countP_isCloseError c q tr _ _ _ pc,
      workerStep_state_active c q tr _ _ _ pc⟩
  | close pc => cases h

/-- A call of `Close` that has passed its compare-and-swap either goes on
inside its wait loop, changing nothing, or returns nil with the state Closed;
it never returns an error and never tries the compare-and-swap again. -/
theorem closeStep_after_cas (q : ShardQueue) (tr : List Event) (pc : ClosePc)
    (hpc : pc ≠ ClosePc.casState) :
    ((closeStep q tr pc).trace = tr ∧ (closeStep q tr pc).q = q ∧
      ∃ pc2, pc2 ≠ ClosePc.casState ∧
        (closeStep q tr pc).next = Next.goto (Thread.close pc2)) ∨
    ((closeStep q tr pc).trace = tr ++ [Event.closeReturn false] ∧
      (closeStep q tr pc).next = Next.ret ∧ (closeStep q tr pc).q.state = closed) := by
  cases pc with
  | casState => exact absurd rfl hpc
  | loadState =>
    by_cases h : q.state = closed
    · right
      simp [closeStep, h]
    · left
      refine ⟨by simp [closeStep, h], by simp [closeStep, h], ClosePc.loadTrigger, by decide, ?_⟩
      simp [closeStep, h]
  | loadTrigger =>
    left
    by_cases h : q.trigger = 0
    · refine ⟨by simp [closeStep, h], by simp [closeStep, h], ClosePc.storeState, by decide, ?_⟩
      simp [closeStep, h]
    · refine ⟨by simp [closeStep, h], by simp [closeStep, h], ClosePc.loadState, by decide, ?_⟩
      simp [closeStep, h]
  | storeState =>
    right
    simp [closeStep]

theorem mem_afterStep (ts : List Thread) (i : Nat) (nx : Next) (b : Thread)
    (h : b ∈ afterStep ts i nx) : b ∈ ts ∨ nx = Next.goto b ∨ b = newWorker := by
  cases nx with
  | goto t =>
    simp only [afterStep] at h
    rcases List.mem_or_eq_of_mem_set h with h | h
    · exact Or.inl h
    · exact Or.inr (Or.inl (by rw [h]))
  | ret =>
    simp only [afterStep] at h
    exact Or.inl (List.mem_of_mem_eraseIdx h)
  | spawn =>
    simp only [afterStep, List.mem_append, List.mem_singleton] at h
    rcases h with h | h
    · exact Or.inl (List.mem_of_mem_eraseIdx h)
    · exact Or.inr (Or.inr h)
  | panic =>
    exact Or.inl h

theorem countP_isClose_afterStep (ts : List Thread) (i : Nat) (t : Thread) (nx : Next)
    (hi : ts[i]? = some t) (ht : t.isClose = false) (hnx : nx.noClose = true) :
    List.countP Thread.isClose (afterStep ts i nx) = List.countP Thread.isClose ts := by
  cases nx with
  | goto t1 =>
    simp only [Next.noClose, Bool.not_eq_true'] at hnx
    simp only [afterStep]
    exact countP_set_same _ t t1 ts i hi (by rw [hnx, ht])
  | ret =>
    simp only [afterStep]
    exact countP_eraseIdx_false _ t ts i hi ht
  | spawn =>
    simp only [afterStep, List.countP_append]
    rw [countP_eraseIdx_false _ t ts i hi ht]
    simp [newWorker, Thread.isClose]
  | panic => rfl

theorem set_of_countP_le_one {α : Type} (p : α → Bool) (x : α) :
    ∀ (ts : List α) (i : Nat) (t : α), List.countP p ts ≤ 1 → ts[i]? = some t → p t = true →
      ∀ b ∈ ts.set i x, b = x ∨ p b = false := by
  intro ts
  induction ts with
  | nil =>
    intro i t _ h
    cases h
  | cons y ys ih =>
    intro i t hc h hp b hb
    cases i with
    | zero =>
      simp only [List.getElem?_cons_zero, Option.some.injEq] at h
      subst h
      simp only [List.set_cons_zero, List.mem_cons] at hb
      rcases hb with hb | hb
      · exact Or.inl hb
      · right
        simp only [List.countP_cons, hp, if_true] at hc
        have hz : List.countP p ys = 0 := by omega
        rw [List.countP_eq_zero] at hz
        simpa using hz b hb
    | succ i =>
      simp only [List.getElem?_cons_succ] at h
      simp only [List.set_cons_succ, List.mem_cons] at hb
      have hpos : 0 < List.countP p ys :=
        List.countP_pos_iff.2 ⟨t, List.mem_iff_getElem?.2 ⟨i, h⟩, hp⟩
      simp only [List.countP_cons] at hc
      rcases hb with hb | hb
      · right
        subst hb
        by_contra hne
        simp only [Bool.not_eq_false] at hne
        simp only [hne, if_true] at hc
        omega
      · exact ih i t (by omega) h hp b hb

theorem closeInv_step (c : Conn) (n : Nat) (s : Sys) (a : Action) (h : CloseInv n s)
    (ha : a.isCallClose = false) : CloseInv n (Sys.step c s a) := by
  obtain ⟨hcount, hcases⟩ := h
  cases a with
  | callClose => cases ha
  | callAdd gts =>
    simp only [Sys.step]
    split
    · exact ⟨hcount, hcases⟩
    · refine ⟨hcount, ?_⟩
      rcases hcases with ⟨hst, hle, hall⟩ | hall
      · left
        refine ⟨hst, ?_, ?_⟩
        · simpa [List.countP_append, newAdd, Thread.isClose] using hle
        · intro t ht hcl
          simp only [List.mem_append, List.mem_singleton] at ht
          rcases ht with ht | ht
          · exact hall t ht hcl
          · subst ht
            cases hcl
      · right
        intro t ht
        simp only [List.mem_append, List.mem_singleton] at ht
        rcases ht with ht | ht
        · exact hall t ht
        · subst ht
          simp [newAdd]
  | run i =>
    simp only [Sys.step]
    split
    · exact ⟨hcount, hcases⟩
    · split
      · exact ⟨hcount, hcases⟩
      · rename_i t hi
        have hmem : t ∈ s.threads := List.mem_iff_getElem?.2 ⟨i, hi⟩
        by_cases hcl : t.isClose = true
        · cases t with
          | add pc gts shard trigger => cases hcl
          | worker pc triggerNum negNum shared => cases hcl
          | close pc =>
            by_cases hpc : pc = ClosePc.casState
            · subst hpc
              rcases hcases with ⟨hst, hle, _⟩ | hall
              · refine ⟨?_, Or.inr ?_⟩
                · simpa [Thread.step, closeStep, hst] using hcount
                · intro b hb
                  simp only [Thread.step, closeStep, hst, if_true, afterStep] at hb
                  rcases set_of_countP_le_one Thread.isClose _ s.threads i _ hle hi rfl b hb
                    with hb1 | hb1
                  · rw [hb1]
                    simp
                  · intro hbe
                    rw [hbe] at hb1
                    cases hb1
              · exact absurd rfl (hall _ hmem)
            · rcases hcases with ⟨_, _, hall⟩ | hall
              · have := hall _ hmem rfl
                simp only [Thread.close.injEq] at this
                exact absurd this hpc
              · simp only [Thread.step]
                rcases closeStep_after_cas s.q s.trace pc hpc with
                  ⟨htr, _, pc2, hpc2, hnx⟩ | ⟨htr, hnx, _⟩
                · refine ⟨by rw [htr]; exact hcount, Or.inr ?_⟩
                  intro b hb
                  rcases mem_afterStep _ _ _ _ hb with hb1 | hb1 | hb1
                  · exact hall b hb1
                  · rw [hnx] at hb1
                    simp only [Next.goto.injEq] at hb1
                    rw [← hb1]
                    simpa using hpc2
                  · rw [hb1]
                    simp [newWorker]
                · refine ⟨?_, Or.inr ?_⟩
                  · rw [htr]
                    simpa [List.countP_append, Event.isCloseError] using hcount
                  · intro b hb
                    rcases mem_afterStep _ _ _ _ hb with hb1 | hb1 | hb1
                    · exact hall b hb1
                    · rw [hnx] at hb1
                      cases hb1
                    · rw [hb1]
                      simp [newWorker]
        · simp only [Bool.not_eq_true] at hcl
          obtain ⟨htr, hstate⟩ := step_not_close c s.q s.trace t hcl
          have hnc := step_noClose c s.q s.trace t hcl
          refine ⟨by rw [htr]; exact hcount, ?_⟩
          rcases hcases with ⟨hst, hle, hall⟩ | hall
          · left
            refine ⟨hstate hst, ?_, ?_⟩
            · rw [countP_isClose_afterStep _ _ _ _ hi hcl hnc]
              exact hle
            · intro b hb hbc
              rcases mem_afterStep _ _ _ _ hb with hb1 | hb1 | hb1
              · exact hall b hb1 hbc
              · rw [hb1] at hnc
                simp only [Next.noClose, Bool.not_eq_true', hbc] at hnc
                cases hnc
              · rw [hb1] at hbc
                cases hbc
          · right
            intro b hb
            rcases mem_afterStep _ _ _ _ hb with hb1 | hb1 | hb1
            · exact hall b hb1
            · rw [hb1] at hnc
              intro hbe
              rw [hbe] at hnc
              cases hnc
            · rw [hb1]
              simp [newWorker]

theorem closeInv_run (c : Conn) (n : Nat) (acts : List Action) :
    ∀ s : Sys, CloseInv n s → (∀ a ∈ acts, a.isCallClose = false) →
      CloseInv n (Sys.run c s acts) := by
  induction acts with
  | nil =>
    intro s h _
    exact h
  | cons a rest ih =>
    intro s h hall
    exact ih _ (closeInv_step c n s a h (hall a (List.mem_cons_self _ _)))
      (fun b hb => hall b (List.mem_cons_of_mem _ hb))

theorem closeCall_after_cas (qs : List ShardQueue) :
    ∀ pc : ClosePc, pc ≠ ClosePc.casState →
      (∃ pc2, pc2 ≠ ClosePc.casState ∧ closeCall pc qs = ([], Next.goto (Thread.close pc2))) ∨
        closeCall pc qs = ([Event.closeReturn false], Next.ret) := by
  induction qs with
  | nil =>
    intro pc hpc
    exact Or.inl ⟨pc, hpc, rfl⟩
  | cons q rest ih =>
    intro pc hpc
    rcases closeStep_after_cas q [] pc hpc with ⟨htr, _, pc2, hpc2, hnx⟩ | ⟨htr, hnx, _⟩
    · rcases ih pc2 hpc2 with ⟨pc3, hpc3, h3⟩ | h3
      · left
        refine ⟨pc3, hpc3, ?_⟩
        simp only [closeCall, hnx, htr, h3, List.append_nil]
      · right
        simp only [closeCall, hnx, htr, h3, List.nil_append]
    · right
      simp only [closeCall, hnx, htr, List.nil_append]

theorem closeCall_append (pre tail : List ShardQueue) :
    ∀ pc pc2 : ClosePc, closeCall pc pre = ([], Next.goto (Thread.close pc2)) →
      closeCall pc (pre ++ tail) = closeCall pc2 tail := by
  induction pre with
  | nil =>
    intro pc pc2 h
    simp only [closeCall, Prod.mk.injEq, Next.goto.injEq, Thread.close.injEq, true_and] at h
    subst h
    rfl
  | cons q rest ih =>
    intro pc pc2 h
    by_cases hpc : pc = ClosePc.casState
    · subst hpc
      by_cases hst : q.state = active
      · simp only [closeCall, closeStep, hst, if_true, List.nil_append, List.cons_append] at h ⊢
        have h1 : closeCall ClosePc.loadState rest = ([], Next.goto (Thread.close pc2)) := h
        have h2 := ih _ _ h1
        change ((closeCall ClosePc.loadState (rest ++ tail)).1,
          (closeCall ClosePc.loadState (rest ++ tail)).2) = _
        rw [h2]
      · simp [closeCall, closeStep, hst] at h
    · rcases closeStep_after_cas q [] pc hpc with ⟨htr, _, pc3, _, hnx⟩ | ⟨htr, hnx, _⟩
      · simp only [closeCall, hnx, htr, List.nil_append, List.cons_append] at h ⊢
        have h1 : closeCall pc3 rest = ([], Next.goto (Thread.close pc2)) := h
        have h2 := ih _ _ h1
        change ((closeCall pc3 (rest ++ tail)).1, (closeCall pc3 (rest ++ tail)).2) = _
        rw [h2]
      · simp [closeCall, hnx, htr] at h

theorem closeCall_no_trigger (tail : List ShardQueue) (h0 : ∀ q ∈ tail, q.trigger = 0)
    (hlen : 3 ≤ tail.length) (pc : ClosePc) (hpc : pc ≠ ClosePc.casState) :
    closeCall pc tail = ([Event.closeReturn false], Next.ret) := by
  match tail, hlen with
  | q1 :: q2 :: q3 :: rest, _ =>
    have h1 : q1.trigger = 0 := h0 q1 (by simp)
    have h2 : q2.trigger = 0 := h0 q2 (by simp)
    cases pc with
    | casState => exact absurd rfl hpc
    | storeState => simp [closeCall, closeStep]
    | loadTrigger => simp [closeCall, closeStep, h1]
    | loadState =>
      by_cases hst : q1.state = closed
      · simp [closeCall, closeStep, hst]
      · simp [closeCall, closeStep, hst, h2]

theorem closeCall_append_returned (pre tail : List ShardQueue) :
    ∀ pc : ClosePc, closeCall pc pre = ([Event.closeReturn false], Next.ret) →
      closeCall pc (pre ++ tail) = ([Event.closeReturn false], Next.ret) := by
  induction pre with
  | nil =>
    intro pc h
    simp [closeCall] at h
  | cons q rest ih =>
    intro pc h
    by_cases hpc : pc = ClosePc.casState
    · subst hpc
      by_cases hst : q.state = active
      · simp only [closeCall, closeStep, hst, if_true, List.nil_append, List.cons_append] at h ⊢
        have h1 : closeCall ClosePc.loadState rest = ([Event.closeReturn false], Next.ret) := h
        have h2 := ih _ h1
        change ((closeCall ClosePc.loadState (rest ++ tail)).1,
          (closeCall ClosePc.loadState (rest ++ tail)).2) = _
        rw [h2]
      · simp [closeCall, closeStep, hst] at h
    · rcases closeStep_after_cas q [] pc hpc with ⟨htr, _, pc3, _, hnx⟩ | ⟨htr, hnx, _⟩
      · simp only [closeCall, hnx, htr, List.nil_append, List.cons_append] at h ⊢
        have h1 : closeCall pc3 rest = ([Event.closeReturn false], Next.ret) := h
        have h2 := ih _ h1
        change ((closeCall pc3 (rest ++ tail)).1, (closeCall pc3 (rest ++ tail)).2) = _
        rw [h2]
      · simp only [closeCall, hnx, htr, List.nil_append, List.cons_append]

theorem closeCall_cas (q0 : ShardQueue) (qs : List ShardQueue) (h : q0.state = active) :
    closeCall ClosePc.casState (q0 :: qs) = closeCall ClosePc.loadState qs := by
  simp only [closeCall, closeStep, h, if_true, List.nil_append]

theorem eraseIdx_set_self {α : Type} (a : α) :
    ∀ (l : List α) (i : Nat), (l.set i a).eraseIdx i = l.eraseIdx i := by
  intro l
  induction l with
  | nil =>
    intro i
    rfl
  | cons x xs ih =>
    intro i
    cases i with
    | zero => rfl
    | succ i => simp [ih i]

/-- A call of `Close` inside its wait loop returns nil within three of its own
steps once no trigger is outstanding. -/
theorem close_returns_nil (c : Conn) (s : Sys) (hp : s.panicked = false) (i : Nat) (pc : ClosePc)
    (hi : s.threads[i]? = some (Thread.close pc)) (hpc : pc ≠ ClosePc.casState)
    (ht : s.q.trigger = 0) :
    ∃ n, n ≤ 3 ∧ Sys.run c s (List.replicate n (Action.run i)) =
      { q := { s.q with state := closed }, trace := s.trace ++ [Event.closeReturn false],
        threads := s.threads.eraseIdx i, panicked := false } := by
  obtain ⟨q, tr, ts, p⟩ := s
  simp only at hp hi ht
  subst hp
  have hlt : i < ts.length := by
    by_contra hge
    rw [List.getElem?_eq_none (Nat.le_of_not_lt hge)] at hi
    cases hi
  have hset : ∀ t : Thread, (ts.set i t)[i]? = some t := by
    intro t
    rw [List.getElem?_set_self hlt]
  cases pc with
  | casState => exact absurd rfl hpc
  | storeState =>
    refine ⟨1, by omega, ?_⟩
    simp [Sys.run, Sys.step, hi, Thread.step, closeStep, afterStep]
  | loadTrigger =>
    refine ⟨2, by omega, ?_⟩
    simp [Sys.run, Sys.step, hi, hset, Thread.step, closeStep, afterStep, ht, List.replicate,
      eraseIdx_set_self]
  | loadState =>
    by_cases hst : q.state = closed
    · refine ⟨1, by omega, ?_⟩
      obtain ⟨idx, size, getters, swap, locks, trigger, state, runNum, w, r, list, listLock⟩ := q
      simp only at hst
      subst hst
      simp [Sys.run, Sys.step, hi, Thread.step, closeStep, afterStep]
    · refine ⟨3, by omega, ?_⟩
      simp [Sys.run, Sys.step, hi, hset, Thread.step, closeStep, afterStep, ht, hst,
        List.replicate, eraseIdx_set_self]

/-- C4: a call of `Close` on a queue that is not Active returns an error and
changes nothing (only the return is recorded).  On an Active queue its
compare-and-swap moves the state to Closing, and the call returns no error:
whatever the trigger counter is and however the steps of the call, of calls of
`Add` and of drain tasks are interleaved, no error return is ever recorded;
after the compare-and-swap every step of the call either stays in the wait loop
or returns nil with the state Closed, and it returns nil within three of its
steps once it finds no trigger outstanding.  The state never becomes Active
again, so every later call returns an error; in particular, of two successive
calls the first returns nil and the second an error.  The last three parts say
the same of one call under arbitrary interference (`closeCall`): it returns an
error when its first step finds the queue not Active, and otherwise it is in
its wait loop or has returned nil, and has returned nil once three of its steps
found no trigger outstanding. -/
theorem close_error_iff_not_active (c : Conn) (s : Sys) (hp : s.panicked = false) :
    (s.q.state ≠ active →
      Sys.run c s [Action.callClose, Action.run s.threads.length] =
        { s with trace := s.trace ++ [Event.closeReturn true] }) ∧
    (s.q.state = active →
      Sys.run c s [Action.callClose, Action.run s.threads.length] =
        { s with q := { s.q with state := closing },
                 threads := s.threads ++ [Thread.close ClosePc.loadState] } ∧
      closing ≠ active) ∧
    (s.q.state = active → (∀ t ∈ s.threads, t.isClose = false) →
      ∀ acts : List Action, (∀ a ∈ acts, a.isCallClose = false) →
        List.countP Event.isCloseError (Sys.run c s (Action.callClose :: acts)).trace =
          List.countP Event.isCloseError s.trace) ∧
    (∀ (q : ShardQueue) (tr : List Event) (pc : ClosePc), pc ≠ ClosePc.casState →
      ((closeStep q tr pc).trace = tr ∧ (closeStep q tr pc).q = q ∧
        ∃ pc2, pc2 ≠ ClosePc.casState ∧
          (closeStep q tr pc).next = Next.goto (Thread.close pc2)) ∨
      ((closeStep q tr pc).trace = tr ++ [Event.closeReturn false] ∧
        (closeStep q tr pc).next = Next.ret ∧ (closeStep q tr pc).q.state = closed)) ∧
    (∀ (i : Nat) (pc : ClosePc), s.threads[i]? = some (Thread.close pc) →
      pc ≠ ClosePc.casState → s.q.trigger = 0 →
      ∃ n, n ≤ 3 ∧ Sys.run c s (List.replicate n (Action.run i)) =
        { q := { s.q with state := closed }, trace := s.trace ++ [Event.closeReturn false],
          threads := s.threads.eraseIdx i, panicked := false }) ∧
    (∀ acts : List Action, s.q.state ≠ active → (Sys.run c s acts).q.state ≠ active) ∧
    (s.q.state = active → s.q.trigger = 0 →
      Sys.run c s [Action.callClose, Action.run s.threads.length, Action.run s.threads.length,
          Action.run s.threads.length, Action.run s.threads.length, Action.callClose,
          Action.run s.threads.length] =
        { s with q := { s.q with state := closed },
                 trace := s.trace ++ [Event.closeReturn false, Event.closeReturn true] }) ∧
    (∀ (q0 : ShardQueue) (qs : List ShardQueue), q0.state ≠ active →
      closeCall ClosePc.casState (q0 :: qs) = ([Event.closeReturn true], Next.ret)) ∧
    (∀ (q0 : ShardQueue) (qs : List ShardQueue), q0.state = active →
      (∃ pc, pc ≠ ClosePc.casState ∧
        closeCall ClosePc.casState (q0 :: qs) = ([], Next.goto (Thread.close pc))) ∨
      closeCall ClosePc.casState (q0 :: qs) = ([Event.closeReturn false], Next.ret)) ∧
    (∀ (q0 : ShardQueue) (pre tail : List ShardQueue), q0.state = active →
      (∀ q ∈ tail, q.trigger = 0) → 3 ≤ tail.length →
      closeCall ClosePc.casState (q0 :: (pre ++ tail)) =
        ([Event.closeReturn false], Next.ret)) := by
  refine ⟨?_, ?_, ?_, ?_, ?_, ?_, ?_, ?_, ?_, ?_⟩
  · obtain ⟨q, tr, ts, p⟩ := s
    simp only at hp
    subst hp
    intro h
    simp only at h
    simp [Sys.run, Sys.step, newClose, Thread.step, closeStep, h, afterStep, eraseIdx_last]
  · obtain ⟨q, tr, ts, p⟩ := s
    simp only at hp
    subst hp
    intro h
    simp only at h
    refine ⟨?_, by decide⟩
    simp [Sys.run, Sys.step, newClose, Thread.step, closeStep, h, afterStep, set_last]
  · intro hst hno acts hacts
    have hinit : CloseInv (List.countP Event.isCloseError s.trace)
        (Sys.step c s Action.callClose) := by
      have hstep : Sys.step c s Action.callClose =
          { s with threads := s.threads ++ [newClose] } := by
        simp [Sys.step, hp]
      rw [hstep]
      refine ⟨rfl, Or.inl ⟨hst, ?_, ?_⟩⟩
      · have hz : List.countP Thread.isClose s.threads = 0 := by
          rw [List.countP_eq_zero]
          intro t ht
          simp [hno t ht]
        simp [List.countP_append, hz, newClose, Thread.isClose]
      · intro t ht hcl
        rcases List.mem_append.1 ht with ht | ht
        · rw [hno t ht] at hcl
          cases hcl
        · exact List.mem_singleton.1 ht
    exact (closeInv_run c _ acts _ hinit hacts).1
  · intro q tr pc hpc
    exact closeStep_after_cas q tr pc hpc
  · intro i pc hi hpc ht
    exact close_returns_nil c s hp i pc hi hpc ht
  · intro acts h
    exact run_state_ne_active c acts _ h
  · obtain ⟨q, tr, ts, p⟩ := s
    simp only at hp
    subst hp
    intro h ht
    simp only at h ht
    have h1 : closing ≠ closed := by decide
    have h2 : closed ≠ active := by decide
    simp [Sys.run, Sys.step, newClose, Thread.step, closeStep, h, ht, h1, h2, afterStep,
      eraseIdx_last, set_last]
  · intro q0 qs h
    simp [closeCall, closeStep, h]
  · intro q0 qs h
    rw [closeCall_cas q0 qs h]
    exact closeCall_after_cas qs ClosePc.loadState (by decide)
  · intro q0 pre tail h h0 hlen
    rw [closeCall_cas q0 _ h]
    rcases closeCall_after_cas pre ClosePc.loadState (by decide) with ⟨pc2, hpc2, h2⟩ | h2
    · rw [closeCall_append pre tail _ _ h2]
      exact closeCall_no_trigger tail h0 hlen pc2 hpc2
    · exact closeCall_append_returned pre tail _ h2

theorem close_error_iff_not_active_witness :
    ((Sys.init 1).panicked = false ∧
      Sys.run goodConn (Sys.init 1) [Action.callClose, Action.run 0, Action.run 0,
          Action.run 0, Action.run 0, Action.callClose, Action.run 0] =
        { Sys.init 1 with q := { (Sys.init 1).q with state := closed },
                          trace := [Event.closeReturn false, Event.closeReturn true] }) ∧
    (pendingSys.panicked = false ∧ pendingSys.q.state = active ∧ pendingSys.q.trigger = 1 ∧
      (∀ t ∈ pendingSys.threads, t.isClose = false) ∧
      (∀ a ∈ waitForDrain, a.isCallClose = false) ∧
      List.countP Event.isCloseError
          (Sys.run goodConn pendingSys (Action.callClose :: waitForDrain)).trace =
        List.countP Event.isCloseError pendingSys.trace ∧
      (Sys.run goodConn pendingSys (Action.callClose :: waitForDrain)).trace =
        [Event.writer, Event.resolve g7, Event.append 7 false, Event.writer, Event.flush false,
          Event.closeReturn false] ∧
      (Sys.run goodConn pendingSys (Action.callClose :: waitForDrain)).threads = [] ∧
      (Sys.run goodConn pendingSys (Action.callClose :: waitForDrain)).q.state = closed) :=
  ⟨⟨rfl, (close_error_iff_not_active goodConn (Sys.init 1) rfl).2.2.2.2.2.2.1 rfl rfl⟩,
    by decide, by decide, by decide, by decide, by decide,
    (close_error_iff_not_active goodConn pendingSys (by decide)).2.2.1 (by decide) (by decide)
      waitForDrain (by decide),
    by decide, by decide, by decide⟩

end Mux

end Netpoll
